import Mathlib

/-!
# Tag list widget (`widgets/taglist.c`)

A shallow embedding of the tag list widget: the per-object cache of drawn
areas, the two loops of `taglist_draw`, the click router
`taglist_button_press` and the property setter `taglist_tell`.

Conventions of the embedding:

* C `int` values are `Int`. The sums of the two loops of `taglist_draw`
  (`w->area.width`, `prev_width`, `area->x`) are 32-bit `int` additions: they
  are taken modulo `2^32` into the range of `int` (`int_add`), as the compiled
  code does; signed overflow itself is undefined in C.
* Linked lists (`next` pointers) are `List`s; a `NULL` list is `[]`.
* Pointers that are only compared (`void *object`, tag and client identity)
  are natural numbers.
* `char *` strings are `String`s; a `NULL` string and `""` are not told apart
  (the `a_str*` helpers of the code base are `NULL`-resistant).
* Functions of the code base that are declared in headers but live outside
  `widgets/taglist.c` are fields of `Env` and stay abstract.
* Drawing and the Lua call are effects; they are recorded as a list of
  commands, respectively a list of invocations, in call order.
-/

namespace Taglist

/-- An `area_t`: a rectangle; the list links are carried by `List`. -/
structure area_t where
  x : Int
  y : Int
  width : Int
  height : Int
deriving DecidableEq, Repr

/-- The least value of a 32-bit C `int`. -/
def INT_MIN : Int := -2147483648

/-- The greatest value of a 32-bit C `int`. -/
def INT_MAX : Int := 2147483647

/-- The value `n` taken modulo `2^32` into the range of a 32-bit C `int`
(two's complement). -/
def int_wrap (n : Int) : Int :=
  (n + 2147483648) % 4294967296 - 2147483648

/-- The sum of two C `int` values as the compiled code computes it: the sum
wraps around when it leaves the range of `int`. -/
def int_add (a b : Int) : Int :=
  int_wrap (a + b)

/-- The fields of `tag_t` read by the widget; `addr` stands for the identity
of the tag object, since tags are handled by pointer. -/
structure tag_t where
  addr : Nat
  name : String
  selected : Bool
deriving DecidableEq, Repr

/-- The fields of `client_t` read by the widget; `win` identifies the client. -/
structure client_t where
  win : Nat
  skip : Bool
  isurgent : Bool
deriving DecidableEq, Repr

/-- A `screen_t`, reduced to its tag list. -/
structure screen_t where
  tags : List tag_t

/-- A `font_t`, reduced to its line height. -/
structure font_t where
  height : Int

/-- The part of `globalconf` read by the widget: the client list, the screen
array, the font and `globalconf.focus->client` (`none` for `NULL`). -/
structure awesome_t where
  clients : List client_t
  screens : Nat → screen_t
  font : font_t
  focus : Option client_t

/-- A `button_t` binding; `fct` is the Lua function reference, `0` when unset. -/
structure button_t where
  button : Nat
  mod : Nat
  fct : Nat
deriving DecidableEq, Repr

/-- The fields of `xcb_button_press_event_t` read by `taglist_button_press`. -/
structure xcb_button_press_event_t where
  detail : Nat
  state : Nat
  event_x : Int
deriving DecidableEq, Repr

/-- An entry of the drawn-area cache: the object it was drawn for and the
rectangles of the last draw for that object. -/
structure taglist_drawn_area_t where
  object : Nat
  area : List area_t
deriving DecidableEq, Repr

/-- The private data of the widget. -/
structure taglist_data_t where
  text_normal : String
  text_focus : String
  text_urgent : String
  show_empty : Bool
  drawn_area : List taglist_drawn_area_t
deriving DecidableEq, Repr

/-- The value of an `alignment_t`; the widget only hands it on to
`widget_calculate_offset`. -/
abbrev alignment_t := Nat

/-- The fields of `widget_t` used by the tag list. -/
structure widget_t where
  align : alignment_t
  buttons : List button_t
  data : taglist_data_t

/-- A `widget_node_t`: the widget and the area it occupies. -/
structure widget_node_t where
  widget : widget_t
  area : area_t

/-- The two values of `widget_tell_status_t` that `taglist_tell` returns. -/
inductive widget_tell_status_t where
  | WIDGET_NOERROR
  | WIDGET_ERROR
deriving DecidableEq, Repr

/-- Functions and macros used by `widgets/taglist.c` whose code is in other
files of the code base. They stay abstract.

* `is_client_tagged c t`: whether client `c` is tagged with `t`;
* `g_markup_escape_text name`: the escaped tag name;
* `markup_parse title_esc str`: the text of the markup parser for `str` with
  the element `title` substituted by `title_esc`, `none` when parsing fails;
* `draw_text_extents font text`: the extents of `text`;
* `widget_calculate_offset width widget_width offset align`;
* `a_strtobool`;
* `CLEANMASK`. -/
structure Env where
  is_client_tagged : client_t → tag_t → Bool
  g_markup_escape_text : String → String
  markup_parse : String → String → Option String
  draw_text_extents : font_t → String → area_t
  widget_calculate_offset : Int → Int → Int → alignment_t → Int
  a_strtobool : String → Bool
  CLEANMASK : Nat → Nat

/-- Modelled from the spec: `a_strdup` (a helper outside `widgets/taglist.c`),
which yields a fresh copy of its argument; a copy of a string is the same
`String`. -/
def a_strdup (s : String) : String := s

/-- Modelled from the spec: the macro `AREA_LEFT`, the left end `x` of the
horizontal span `[x, x+width)` of a rectangle. -/
def AREA_LEFT (a : area_t) : Int := a.x

/-- Modelled from the spec: the macro `AREA_RIGHT`, the right end `x+width` of
the horizontal span `[x, x+width)` of a rectangle. -/
def AREA_RIGHT (a : area_t) : Int := a.x + a.width

/-- Modelled from the spec: `taglist_drawn_area_list_push`, generated by the
macro `DO_SLIST`; it links a new entry into the cache, here at the head. -/
def taglist_drawn_area_list_push (l : List taglist_drawn_area_t)
    (tda : taglist_drawn_area_t) : List taglist_drawn_area_t :=
  tda :: l

/-- The function `tag_markup_parse`: the parser's text, or a copy of `str` when
parsing fails. -/
def tag_markup_parse (env : Env) (t : tag_t) (str : String) : String :=
  let title_esc := env.g_markup_escape_text t.name
  match env.markup_parse title_esc str with
  | some text => text
  | none => a_strdup str

/-- The loop of `tag_isoccupied` over the client list. -/
def tag_isoccupied_loop (env : Env) (t : tag_t) : List client_t → Bool
  | [] => false
  | c :: rest =>
    if env.is_client_tagged c t && !c.skip then true
    else tag_isoccupied_loop env t rest

/-- The function `tag_isoccupied`. -/
def tag_isoccupied (env : Env) (globalconf : awesome_t) (t : tag_t) : Bool :=
  tag_isoccupied_loop env t globalconf.clients

/-- The loop of `tag_isurgent` over the client list. -/
def tag_isurgent_loop (env : Env) (t : tag_t) : List client_t → Bool
  | [] => false
  | c :: rest =>
    if env.is_client_tagged c t && c.isurgent then true
    else tag_isurgent_loop env t rest

/-- The function `tag_isurgent`. -/
def tag_isurgent (env : Env) (globalconf : awesome_t) (t : tag_t) : Bool :=
  tag_isurgent_loop env t globalconf.clients

/-- The function `taglist_text_get`. -/
def taglist_text_get (env : Env) (globalconf : awesome_t) (tag : tag_t)
    (data : taglist_data_t) : String :=
  if tag.selected then data.text_focus
  else if tag_isurgent env globalconf tag then data.text_urgent
  else data.text_normal

/-- The lookup loop shared by `taglist_draw` and `taglist_button_press`:
the first cache entry whose object is `object`, `none` when the loop ends
with `tda == NULL`. -/
def tda_lookup (object : Nat) : List taglist_drawn_area_t → Option taglist_drawn_area_t
  | [] => none
  | tda :: rest => if tda.object = object then some tda else tda_lookup object rest

/-- Writing `tda->area` through the pointer found by the lookup loop: the area
list of the first entry whose object is `object` is replaced. -/
def tda_store (object : Nat) (area : List area_t) :
    List taglist_drawn_area_t → List taglist_drawn_area_t
  | [] => []
  | tda :: rest =>
    if tda.object = object then { tda with area := area } :: rest
    else tda :: tda_store object area rest

/-- What `taglist_draw` sends to the drawing layer. -/
inductive draw_cmd where
  | draw_text (area : area_t) (text : String)
  | draw_rectangle (rectangle : area_t) (filled : Bool)
deriving DecidableEq, Repr

/-- The state of the first loop of `taglist_draw`: the `text` array, the area
list `tda->area` and `w->area.width`. -/
structure draw_state where
  text : List String
  area : List area_t
  width : Int
deriving DecidableEq, Repr

/-- The first loop of `taglist_draw`: for every tag, resolve and expand the
label, measure it, add its width to `w->area.width` (an `int` addition) and
append its area. -/
def taglist_draw_extents (env : Env) (globalconf : awesome_t) (data : taglist_data_t) :
    List tag_t → draw_state → draw_state
  | [], st => st
  | tag :: rest, st =>
    let text_i := tag_markup_parse env tag (taglist_text_get env globalconf tag data)
    let area := env.draw_text_extents globalconf.font text_i
    taglist_draw_extents env globalconf data rest
      { text := st.text ++ [text_i], area := st.area ++ [area],
        width := int_add st.width area.width }

/-- The second loop of `taglist_draw`, walking the tags and the areas in
lock-step from index `i` with the running `prev_width`; `wx` is `w->area.x`.
The sums `w->area.x + prev_width` and `prev_width += area->width` are `int`
additions. It yields the areas (with the `x` of the drawn ones set) and the
drawing commands. -/
def taglist_draw_place (env : Env) (globalconf : awesome_t) (data : taglist_data_t)
    (wx : Int) (text : List String) :
    List tag_t → List area_t → Nat → Int → List area_t × List draw_cmd
  | tag :: tags, area :: areas, i, prev_width =>
    if !data.show_empty && !tag.selected && !tag_isoccupied env globalconf tag then
      let r := taglist_draw_place env globalconf data wx text tags areas (i + 1) prev_width
      (area :: r.1, r.2)
    else
      let area' : area_t := { area with x := int_add wx prev_width }
      let side := (globalconf.font.height + 2).tdiv 3
      let filled :=
        match globalconf.focus with
        | some sel => env.is_client_tagged sel tag
        | none => false
      let cmds :=
        draw_cmd.draw_text area' (text.getD i "") ::
          (if tag_isoccupied env globalconf tag then
            [draw_cmd.draw_rectangle
              { x := area'.x, y := area'.y, width := side, height := side } filled]
          else [])
      let r := taglist_draw_place env globalconf data wx text tags areas (i + 1)
        (int_add prev_width area.width)
      (area' :: r.1, cmds ++ r.2)
  | _, areas, _, _ => (areas, [])

/-- The result of `taglist_draw`: the returned width, the widget node after the
call and the drawing commands issued. -/
structure draw_result where
  ret : Int
  w : widget_node_t
  cmds : List draw_cmd

/-- The function `taglist_draw`. -/
def taglist_draw (env : Env) (globalconf : awesome_t) (screen : Nat) (w : widget_node_t)
    (width height offset : Int) (object : Nat) : draw_result :=
  let data := w.widget.data
  let vscreen := globalconf.screens screen
  let drawn_area :=
    match tda_lookup object data.drawn_area with
    | some _ => data.drawn_area
    | none => taglist_drawn_area_list_push data.drawn_area { object := object, area := [] }
  let st := taglist_draw_extents env globalconf data vscreen.tags
    { text := [], area := [], width := 0 }
  let wx := env.widget_calculate_offset width st.width offset w.widget.align
  let r := taglist_draw_place env globalconf data wx st.text vscreen.tags st.area 0 0
  let data' := { data with drawn_area := tda_store object r.1 drawn_area }
  { ret := st.width,
    w := { widget := { w.widget with data := data' },
           area := { x := wx, y := 0, width := st.width, height := height } },
    cmds := r.2 }

/-- The inner loop of `taglist_button_press`: walk the tags and the area cursor
in lock-step; on the first area whose span holds `event_x` yield the tag,
otherwise yield the cursor where the walk ended. -/
def taglist_button_press_scan (ev : xcb_button_press_event_t) :
    List tag_t → List area_t → Option tag_t × List area_t
  | tag :: tags, area :: areas =>
    if ev.event_x ≥ AREA_LEFT area ∧ ev.event_x < AREA_RIGHT area then
      (some tag, area :: areas)
    else taglist_button_press_scan ev tags areas
  | _, areas => (none, areas)

/-- The test of the outer loop of `taglist_button_press` on a binding. -/
def button_matches (env : Env) (ev : xcb_button_press_event_t) (b : button_t) : Bool :=
  ev.detail == b.button && env.CLEANMASK ev.state == b.mod && b.fct != 0

/-- The outer loop of `taglist_button_press` over the bindings, with the area
cursor `area` that is set once before the loop and shared by all bindings.
The result is the list of Lua calls made: function reference and tag. -/
def taglist_button_press_loop (env : Env) (ev : xcb_button_press_event_t)
    (tags : List tag_t) : List button_t → List area_t → List (Nat × tag_t)
  | [], _ => []
  | b :: rest, area =>
    if button_matches env ev b then
      match taglist_button_press_scan ev tags area with
      | (some tag, _) => [(b.fct, tag)]
      | (none, area') => taglist_button_press_loop env ev tags rest area'
    else taglist_button_press_loop env ev tags rest area

/-- The function `taglist_button_press`. The result is `none` when the call
reads `tda->area` through a `NULL` `tda`, and otherwise the Lua calls made. -/
def taglist_button_press (env : Env) (globalconf : awesome_t) (w : widget_node_t)
    (ev : xcb_button_press_event_t) (screen : Nat) (object : Nat) :
    Option (List (Nat × tag_t)) :=
  let vscreen := globalconf.screens screen
  let data := w.widget.data
  match tda_lookup object data.drawn_area with
  | none => none
  | some tda =>
    some (taglist_button_press_loop env ev vscreen.tags w.widget.buttons tda.area)

/-- The function `taglist_tell`: the status and the widget data after the call. -/
def taglist_tell (env : Env) (d : taglist_data_t) (property new_value : String) :
    widget_tell_status_t × taglist_data_t :=
  if property = "text_normal" then
    (widget_tell_status_t.WIDGET_NOERROR, { d with text_normal := a_strdup new_value })
  else if property = "text_focus" then
    (widget_tell_status_t.WIDGET_NOERROR, { d with text_focus := a_strdup new_value })
  else if property = "text_urgent" then
    (widget_tell_status_t.WIDGET_NOERROR, { d with text_urgent := a_strdup new_value })
  else if property = "show_empty" then
    (widget_tell_status_t.WIDGET_NOERROR, { d with show_empty := env.a_strtobool new_value })
  else
    (widget_tell_status_t.WIDGET_ERROR, d)

/-! ## The label of a tag and the two loops of `taglist_draw` -/

/-- The text `text[i]` that the first loop of `taglist_draw` computes for a tag:
the expansion of the template chosen by `taglist_text_get`. -/
def tag_label (env : Env) (globalconf : awesome_t) (data : taglist_data_t) (tag : tag_t) :
    String :=
  tag_markup_parse env tag (taglist_text_get env globalconf tag data)

/-- The area that the first loop of `taglist_draw` measures for a tag. -/
def tag_extents (env : Env) (globalconf : awesome_t) (data : taglist_data_t) (tag : tag_t) :
    area_t :=
  env.draw_text_extents globalconf.font (tag_label env globalconf data tag)

/-! ## Vocabulary of the click router -/

/-- The horizontal span `[x, x+width)` of the area `a` holds the coordinate `x`. -/
def span_holds (a : area_t) (x : Int) : Prop :=
  a.x ≤ x ∧ x < a.x + a.width

instance (a : area_t) (x : Int) : Decidable (span_holds a x) := by
  unfold span_holds; infer_instance

/-- The binding `b` has the button of the event, its cleaned modifier mask and
a non-null action. -/
def binding_applies (env : Env) (ev : xcb_button_press_event_t) (b : button_t) : Prop :=
  ev.detail = b.button ∧ env.CLEANMASK ev.state = b.mod ∧ b.fct ≠ 0

instance (env : Env) (ev : xcb_button_press_event_t) (b : button_t) :
    Decidable (binding_applies env ev b) := by
  unfold binding_applies; infer_instance

/-- A router that restarts the walk over the tags and the areas from the head
of the cached area list for each binding: the reference for the shared cursor
of `taglist_button_press_loop`. -/
def router_restart (env : Env) (ev : xcb_button_press_event_t) (tags : List tag_t)
    (areas : List area_t) : List button_t → List (Nat × tag_t)
  | [] => []
  | b :: rest =>
    if binding_applies env ev b then
      match (taglist_button_press_scan ev tags areas).1 with
      | some tag => [(b.fct, tag)]
      | none => router_restart env ev tags areas rest
    else router_restart env ev tags areas rest

/-- The areas with their `x` set one after the other, the first at
`wx + prev_width`, each next one further right by the width of the one before:
what the second loop of `taglist_draw` leaves when it skips no tag. -/
def areas_placed (wx : Int) : List area_t → Int → List area_t
  | [], _ => []
  | area :: areas, prev_width =>
    { area with x := wx + prev_width } :: areas_placed wx areas (prev_width + area.width)

/-- The tag is not filtered out by the second loop of `taglist_draw`:
`show_empty` is on, or the tag is selected, or the tag is occupied. -/
def tag_shown (env : Env) (globalconf : awesome_t) (data : taglist_data_t) (tag : tag_t) :
    Bool :=
  data.show_empty || tag.selected || tag_isoccupied env globalconf tag

/-- The arguments of one call of `taglist_draw` on a widget node, with the
configuration at the time of the call. -/
structure draw_call where
  globalconf : awesome_t
  screen : Nat
  width : Int
  height : Int
  offset : Int
  object : Nat

/-- The widget node after a sequence of calls of `taglist_draw`, each on the
node left by the call before. -/
def taglist_draws (env : Env) : widget_node_t → List draw_call → widget_node_t
  | w, [] => w
  | w, c :: calls =>
    taglist_draws env
      (taglist_draw env c.globalconf c.screen w c.width c.height c.offset c.object).w calls

/-- The value of `w->area.width` after the first loop of `taglist_draw`: the
measured widths of the tags added one after the other as C `int` values. -/
def tags_width (env : Env) (globalconf : awesome_t) (data : taglist_data_t)
    (tags : List tag_t) : Int :=
  (tags.map fun t => (tag_extents env globalconf data t).width).foldl int_add 0

/-- The number `n` lies in the range of a 32-bit C `int`. -/
def int_fits (n : Int) : Prop :=
  INT_MIN ≤ n ∧ n ≤ INT_MAX

instance (n : Int) : Decidable (int_fits n) := by
  unfold int_fits; infer_instance

/-- The areas that `taglist_draw` leaves in the cache entry of the drawn
object: the measured areas of the tags after the second loop, run from the
anchor that `widget_calculate_offset` yields for the total width. -/
def taglist_draw_areas (env : Env) (globalconf : awesome_t) (data : taglist_data_t)
    (align : alignment_t) (tags : List tag_t) (width offset : Int) : List area_t :=
  (taglist_draw_place env globalconf data
    (env.widget_calculate_offset width (tags_width env globalconf data tags) offset align)
    (tags.map (tag_label env globalconf data)) tags
    (tags.map (tag_extents env globalconf data)) 0 0).1

/-! ## Concrete inputs used to evaluate the embedding -/

/-- A concrete environment: client `c` is tagged with the tag whose address is
`c.win / 10`; the markup parser fails on the template `"!"` and otherwise
appends the title to the template; a text is as wide as it has characters. -/
def demo_env : Env where
  is_client_tagged := fun c t => c.win / 10 == t.addr
  g_markup_escape_text := fun s => s
  markup_parse := fun title str => if str = "!" then none else some (str ++ title)
  draw_text_extents := fun font text =>
    { x := 0, y := 0, width := text.length, height := font.height }
  widget_calculate_offset := fun width wwidth offset align =>
    if align = 0 then offset else width - offset - wwidth
  a_strtobool := fun s => s == "true"
  CLEANMASK := fun m => m % 8

/-- Three tags: `"1"` empty, `"2"` selected, `"3"` neither. -/
def demo_tags : List tag_t :=
  [⟨1, "1", false⟩, ⟨2, "2", true⟩, ⟨3, "3", false⟩]

/-- A configuration with the three tags on every screen; tag `"3"` holds the
visible client 30 and the skipped urgent client 31, tag `"2"` only the skipped
urgent client 20. -/
def demo_conf : awesome_t where
  clients := [⟨30, false, false⟩, ⟨31, true, true⟩, ⟨20, true, true⟩]
  screens := fun _ => ⟨demo_tags⟩
  font := ⟨10⟩
  focus := none

/-- Widget data with three different templates and an empty cache. -/
def demo_data : taglist_data_t :=
  { text_normal := "n", text_focus := "f", text_urgent := "u", show_empty := true,
    drawn_area := [] }

/-- A widget node with one binding on button 1. -/
def demo_w : widget_node_t :=
  { widget := { align := 0, buttons := [⟨1, 0, 7⟩], data := demo_data },
    area := ⟨0, 0, 0, 0⟩ }

/-- The widget node `demo_w` after a draw for object 42 on a bar of width 100
at offset 5: the labels are `"n1"`, `"f2"`, `"u3"` with spans `[5,7)`, `[7,9)`
and `[9,11)`. -/
def demo_drawn : widget_node_t :=
  (taglist_draw demo_env demo_conf 0 demo_w 100 12 5 42).w

/-- Two tags, the first with an empty name, and no client. -/
def zero_conf : awesome_t where
  clients := []
  screens := fun _ => ⟨[⟨1, "", false⟩, ⟨2, "ab", false⟩]⟩
  font := ⟨10⟩
  focus := none

/-- A widget node with empty templates, so that the label of a tag is its name,
after a draw for object 42 at offset 5: the first label has width 0. -/
def zero_drawn : widget_node_t :=
  (taglist_draw demo_env zero_conf 0
    { demo_w with widget := { demo_w.widget with data :=
        { text_normal := "", text_focus := "", text_urgent := "", show_empty := true,
          drawn_area := [] } } }
    100 12 5 42).w

/-- The widget node `demo_w` with `show_empty` off after a draw for object 42
at offset 1: the tag `"1"` is filtered out and its area keeps the `x` of the
measured extents. -/
def hidden_drawn : widget_node_t :=
  (taglist_draw demo_env demo_conf 0
    { demo_w with widget := { demo_w.widget with data := { demo_data with show_empty := false } } }
    100 12 1 42).w

/-- The drawn widget `demo_drawn` with three bindings, on the buttons 3, 1
and 2. -/
def demo_multi : widget_node_t :=
  { demo_drawn with
    widget := { demo_drawn.widget with buttons := [⟨3, 0, 9⟩, ⟨1, 0, 7⟩, ⟨2, 0, 8⟩] } }

/-- The widget node `demo_w` with `show_empty` off, before any draw. -/
def hidden_w : widget_node_t :=
  { demo_w with widget := { demo_w.widget with data := { demo_data with show_empty := false } } }

/-- Three draws of the tags of `demo_conf`: for the objects 42, 43 and again 42. -/
def demo_calls : List draw_call :=
  [⟨demo_conf, 0, 100, 12, 5, 42⟩, ⟨demo_conf, 0, 80, 12, 0, 43⟩, ⟨demo_conf, 0, 100, 12, 7, 42⟩]

/-- A configuration with the single tag `"1"` and no client. -/
def stale_conf : awesome_t where
  clients := []
  screens := fun _ => ⟨[⟨1, "1", false⟩]⟩
  font := ⟨10⟩
  focus := none

/-- A widget node whose cache for the object 42 still has the two areas `[0,2)`
and `[5,7)` of a draw made when there were two tags, with two bindings on
button 1. -/
def stale_w : widget_node_t :=
  { widget :=
      { align := 0, buttons := [⟨1, 0, 7⟩, ⟨1, 0, 8⟩],
        data := { demo_data with drawn_area := [⟨42, [⟨0, 0, 2, 10⟩, ⟨5, 0, 2, 10⟩]⟩] } },
    area := ⟨0, 0, 4, 12⟩ }

/-- The widget node `hidden_w` (`show_empty` off) after a draw for object 42 at
offset 0: the filtered tag `"1"` keeps the span `[0,2)` of its measured
extents, the tags `"2"` and `"3"` are drawn at `[0,2)` and `[2,4)`. -/
def hidden_drawn_left : widget_node_t :=
  (taglist_draw demo_env demo_conf 0 hidden_w 100 12 0 42).w

/-- The environment `demo_env` with a text measure that returns the width
`2^30` for every text. -/
def wide_env : Env :=
  { demo_env with
    draw_text_extents := fun font _ => { x := 0, y := 0, width := 1073741824, height := font.height } }

/-- The widget node `demo_w` after a draw of the three tags of `demo_conf` for
object 42 at offset 5 with the measure of `wide_env`: three labels of width
`2^30`. -/
def wide_drawn : widget_node_t :=
  (taglist_draw wide_env demo_conf 0 demo_w 100 12 5 42).w

/-! ## Properties of the two loops of `taglist_draw` -/

theorem int_wrap_idem (n : Int) : int_wrap (int_wrap n) = int_wrap n := by
  unfold int_wrap
  omega

theorem int_wrap_add_left (a b : Int) : int_wrap (int_wrap a + b) = int_wrap (a + b) := by
  unfold int_wrap
  omega

theorem int_wrap_add_right (a b : Int) : int_wrap (a + int_wrap b) = int_wrap (a + b) := by
  unfold int_wrap
  omega

theorem int_wrap_of_fits (n : Int) (h : int_fits n) : int_wrap n = n := by
  unfold int_fits INT_MIN INT_MAX at h
  unfold int_wrap
  omega

theorem int_fits_wrap (n : Int) : int_fits (int_wrap n) := by
  unfold int_fits INT_MIN INT_MAX int_wrap
  omega

/-- A chain of C `int` additions from a value in range is the sum taken into
the range of `int`. -/
theorem foldl_int_add (a : Int) (l : List Int) (ha : int_wrap a = a) :
    l.foldl int_add a = int_wrap (a + l.sum) := by
  induction l generalizing a with
  | nil => simp [ha]
  | cons b l ih =>
    simp only [List.foldl_cons, List.sum_cons]
    rw [ih (int_add a b) (int_wrap_idem _), int_add, int_wrap_add_left, add_assoc]

theorem tags_width_eq (env : Env) (globalconf : awesome_t) (data : taglist_data_t)
    (tags : List tag_t) :
    tags_width env globalconf data tags
      = int_wrap (tags.map fun t => (tag_extents env globalconf data t).width).sum := by
  rw [tags_width, foldl_int_add 0 _ (by decide), zero_add]

theorem taglist_draw_extents_eq (env : Env) (globalconf : awesome_t) (data : taglist_data_t)
    (tags : List tag_t) (st : draw_state) :
    taglist_draw_extents env globalconf data tags st =
      { text := st.text ++ tags.map (tag_label env globalconf data),
        area := st.area ++ tags.map (tag_extents env globalconf data),
        width := (tags.map fun t => (tag_extents env globalconf data t).width).foldl
          int_add st.width } := by
  induction tags generalizing st with
  | nil => simp [taglist_draw_extents]
  | cons tag rest ih =>
    simp only [taglist_draw_extents, ih, List.map_cons, List.foldl_cons, List.append_assoc,
      List.singleton_append, tag_label, tag_extents]

theorem taglist_draw_place_width (env : Env) (globalconf : awesome_t) (data : taglist_data_t)
    (wx : Int) (text : List String) (tags : List tag_t) (areas : List area_t) (i : Nat)
    (prev_width : Int) :
    (taglist_draw_place env globalconf data wx text tags areas i prev_width).1.map (·.width)
      = areas.map (·.width) := by
  induction tags generalizing areas i prev_width with
  | nil => simp [taglist_draw_place]
  | cons tag tags ih =>
    cases areas with
    | nil => simp [taglist_draw_place]
    | cons area areas =>
      simp only [taglist_draw_place]
      split <;> simp [ih]

theorem tda_lookup_store (object : Nat) (area : List area_t) (l : List taglist_drawn_area_t)
    (h : (tda_lookup object l).isSome = true) :
    tda_lookup object (tda_store object area l) = some { object := object, area := area } := by
  induction l with
  | nil => simp [tda_lookup] at h
  | cons tda rest ih =>
    by_cases ho : tda.object = object
    · simp [tda_store, tda_lookup, ho]
    · simp only [tda_lookup, ho, if_false] at h
      simp [tda_store, tda_lookup, ho, ih h]

/-- The cache after `taglist_draw` holds, for the drawn object, the areas left
by the second loop. -/
theorem taglist_draw_lookup (env : Env) (globalconf : awesome_t) (screen : Nat)
    (w : widget_node_t) (width height offset : Int) (object : Nat) :
    tda_lookup object
        (taglist_draw env globalconf screen w width height offset object).w.widget.data.drawn_area
      = some
        { object := object,
          area :=
            (taglist_draw_place env globalconf w.widget.data
              (env.widget_calculate_offset width
                (tags_width env globalconf w.widget.data (globalconf.screens screen).tags)
                offset w.widget.align)
              ((globalconf.screens screen).tags.map (tag_label env globalconf w.widget.data))
              (globalconf.screens screen).tags
              ((globalconf.screens screen).tags.map (tag_extents env globalconf w.widget.data))
              0 0).1 } := by
  simp only [taglist_draw, taglist_draw_extents_eq, List.nil_append, tags_width]
  apply tda_lookup_store
  cases h : tda_lookup object w.widget.data.drawn_area with
  | some tda => simp [h]
  | none => simp [taglist_drawn_area_list_push, tda_lookup]

/-! ## The width returned by `taglist_draw` and the cached areas -/

/-- C1, as stated, fails on the code: with three labels of measured width
`2^30` the sum of the widths is `3 * 2^30`, which is not a C `int`, and
`taglist_draw` returns `-2^30`. -/
theorem taglist_draw_ret_eq_sum_counterexample :
    ((demo_conf.screens 0).tags.map fun tag =>
        (wide_env.draw_text_extents demo_conf.font
          (tag_markup_parse wide_env tag
            (taglist_text_get wide_env demo_conf tag demo_w.widget.data))).width).sum
      = 3221225472 ∧
    (taglist_draw wide_env demo_conf 0 demo_w 100 12 5 42).ret = -1073741824 := by
  decide

/-- C1, amended: the width returned by `taglist_draw` is the sum, over all tags
of the screen in tag order, of the measured width of the tag's resolved label
text, whatever `show_empty` is and whichever tags the second loop skips, taken
modulo `2^32` into the range of a C `int`; it is the sum itself whenever the
sum lies in the range of a C `int`. -/
theorem taglist_draw_ret_eq_sum (env : Env) (globalconf : awesome_t) (screen : Nat)
    (w : widget_node_t) (width height offset : Int) (object : Nat) :
    (taglist_draw env globalconf screen w width height offset object).ret =
      int_wrap
        ((globalconf.screens screen).tags.map fun tag =>
          (env.draw_text_extents globalconf.font
            (tag_markup_parse env tag
              (taglist_text_get env globalconf tag w.widget.data))).width).sum ∧
    (INT_MIN ≤
        ((globalconf.screens screen).tags.map fun tag =>
          (env.draw_text_extents globalconf.font
            (tag_markup_parse env tag
              (taglist_text_get env globalconf tag w.widget.data))).width).sum ∧
      ((globalconf.screens screen).tags.map fun tag =>
          (env.draw_text_extents globalconf.font
            (tag_markup_parse env tag
              (taglist_text_get env globalconf tag w.widget.data))).width).sum ≤ INT_MAX →
      (taglist_draw env globalconf screen w width height offset object).ret =
        ((globalconf.screens screen).tags.map fun tag =>
          (env.draw_text_extents globalconf.font
            (tag_markup_parse env tag
              (taglist_text_get env globalconf tag w.widget.data))).width).sum) := by
  have h : (taglist_draw env globalconf screen w width height offset object).ret =
      tags_width env globalconf w.widget.data (globalconf.screens screen).tags := by
    simp only [taglist_draw, taglist_draw_extents_eq, tags_width]
  rw [h, tags_width_eq]
  exact ⟨rfl, fun hfit => int_wrap_of_fits _ hfit⟩

/-- The theorem `taglist_draw_ret_eq_sum` on the draw of `demo_w`: the three
labels are 2 wide each, the sum 6 is a C `int` and the draw returns 6. -/
theorem taglist_draw_ret_eq_sum_witness :
    (taglist_draw demo_env demo_conf 0 demo_w 100 12 5 42).ret = 6 :=
  (taglist_draw_ret_eq_sum demo_env demo_conf 0 demo_w 100 12 5 42).2 (by decide)

/-- C2: whatever the cache held before, after `taglist_draw` for an object the
cache entry found for that object has one area per tag of the screen, in tag
order, each with the width measured for that tag. -/
theorem taglist_draw_cache_per_tag (env : Env) (globalconf : awesome_t) (screen : Nat)
    (w : widget_node_t) (width height offset : Int) (object : Nat) :
    ∃ tda,
      tda_lookup object
        (taglist_draw env globalconf screen w width height offset object).w.widget.data.drawn_area
        = some tda ∧
      tda.object = object ∧
      tda.area.length = (globalconf.screens screen).tags.length ∧
      tda.area.map (·.width) =
        (globalconf.screens screen).tags.map fun tag =>
          (env.draw_text_extents globalconf.font
            (tag_markup_parse env tag
              (taglist_text_get env globalconf tag w.widget.data))).width := by
  refine ⟨_, taglist_draw_lookup env globalconf screen w width height offset object, rfl, ?_, ?_⟩
  · have h := congrArg List.length
      (taglist_draw_place_width env globalconf w.widget.data
        (env.widget_calculate_offset width
          (tags_width env globalconf w.widget.data (globalconf.screens screen).tags)
          offset w.widget.align)
        ((globalconf.screens screen).tags.map (tag_label env globalconf w.widget.data))
        (globalconf.screens screen).tags
        ((globalconf.screens screen).tags.map (tag_extents env globalconf w.widget.data)) 0 0)
    simpa using h
  · simp only [taglist_draw_place_width, List.map_map]
    rfl

/-! ## The template of a tag -/

/-- C3: `taglist_text_get` yields the focus template for a selected tag (urgent
or not), otherwise the urgent template when `tag_isurgent` holds, otherwise the
normal template. -/
theorem taglist_text_get_priority (env : Env) (globalconf : awesome_t) (tag : tag_t)
    (data : taglist_data_t) :
    (tag.selected = true → taglist_text_get env globalconf tag data = data.text_focus) ∧
    (tag.selected = false → tag_isurgent env globalconf tag = true →
      taglist_text_get env globalconf tag data = data.text_urgent) ∧
    (tag.selected = false → tag_isurgent env globalconf tag = false →
      taglist_text_get env globalconf tag data = data.text_normal) := by
  refine ⟨fun h => ?_, fun h hu => ?_, fun h hu => ?_⟩ <;> simp [taglist_text_get, h, *]

/-- The three cases of `taglist_text_get_priority` on concrete tags: a selected
tag that is also urgent, an urgent tag and a plain tag. -/
theorem taglist_text_get_priority_witness :
    (tag_isurgent demo_env demo_conf ⟨3, "3", true⟩ = true ∧
      taglist_text_get demo_env demo_conf ⟨3, "3", true⟩ demo_data = "f") ∧
    taglist_text_get demo_env demo_conf ⟨3, "3", false⟩ demo_data = "u" ∧
    taglist_text_get demo_env demo_conf ⟨1, "1", false⟩ demo_data = "n" :=
  ⟨⟨by decide, (taglist_text_get_priority demo_env demo_conf ⟨3, "3", true⟩ demo_data).1 rfl⟩,
   (taglist_text_get_priority demo_env demo_conf ⟨3, "3", false⟩ demo_data).2.1 rfl (by decide),
   (taglist_text_get_priority demo_env demo_conf ⟨1, "1", false⟩ demo_data).2.2 rfl (by decide)⟩

/-! ## The click router -/

theorem button_matches_iff (env : Env) (ev : xcb_button_press_event_t) (b : button_t) :
    button_matches env ev b = true ↔ binding_applies env ev b := by
  simp [button_matches, binding_applies, and_assoc]

theorem scan_cons (ev : xcb_button_press_event_t) (tag : tag_t) (tags : List tag_t)
    (area : area_t) (areas : List area_t) :
    taglist_button_press_scan ev (tag :: tags) (area :: areas) =
      if span_holds area ev.event_x then (some tag, area :: areas)
      else taglist_button_press_scan ev tags areas := by
  by_cases h : span_holds area ev.event_x
  · have h' := h
    simp only [span_holds] at h'
    simp [taglist_button_press_scan, AREA_LEFT, AREA_RIGHT, h, h']
  · have h' := h
    simp only [span_holds] at h'
    simp [taglist_button_press_scan, AREA_LEFT, AREA_RIGHT, h, h']

theorem scan_nil_areas (ev : xcb_button_press_event_t) (tags : List tag_t) :
    taglist_button_press_scan ev tags [] = (none, []) := by
  cases tags <;> simp [taglist_button_press_scan]

theorem scan_nil_tags (ev : xcb_button_press_event_t) (areas : List area_t) :
    taglist_button_press_scan ev [] areas = (none, areas) := by
  simp [taglist_button_press_scan]

/-- A walk over areas none of which holds `event_x` finds no tag. -/
theorem scan_miss (ev : xcb_button_press_event_t) (tags : List tag_t) (areas : List area_t)
    (h : ∀ a ∈ areas, ¬ span_holds a ev.event_x) :
    (taglist_button_press_scan ev tags areas).1 = none := by
  induction tags generalizing areas with
  | nil => simp [scan_nil_tags]
  | cons tag tags ih =>
    cases areas with
    | nil => simp [scan_nil_areas]
    | cons area areas =>
      rw [scan_cons, if_neg (h area (List.mem_cons_self _ _))]
      exact ih areas fun a ha => h a (List.mem_cons_of_mem _ ha)

/-- A walk that finds no tag leaves the cursor empty when there are at least as
many tags as areas. -/
theorem scan_none_cursor (ev : xcb_button_press_event_t) (tags : List tag_t)
    (areas : List area_t) (hlen : areas.length ≤ tags.length)
    (h : (taglist_button_press_scan ev tags areas).1 = none) :
    taglist_button_press_scan ev tags areas = (none, []) := by
  induction tags generalizing areas with
  | nil =>
    cases areas with
    | nil => simp [scan_nil_tags]
    | cons area areas => simp at hlen
  | cons tag tags ih =>
    cases areas with
    | nil => simp [scan_nil_areas]
    | cons area areas =>
      rw [scan_cons] at h ⊢
      by_cases hs : span_holds area ev.event_x
      · simp [hs] at h
      · simp only [hs, if_false] at h ⊢
        exact ih areas (by simpa using hlen) h

/-- The walk yields the tag at the index of the first area that holds `event_x`. -/
theorem scan_hit (ev : xcb_button_press_event_t) (tags : List tag_t) (areas : List area_t)
    (k : Nat) (tag : tag_t) (a : area_t)
    (ht : tags[k]? = some tag) (ha : areas[k]? = some a) (hk : span_holds a ev.event_x)
    (hfirst : ∀ j < k, ∀ a', areas[j]? = some a' → ¬ span_holds a' ev.event_x) :
    (taglist_button_press_scan ev tags areas).1 = some tag := by
  induction tags generalizing areas k with
  | nil => simp at ht
  | cons t tags ih =>
    cases areas with
    | nil => simp at ha
    | cons a0 areas =>
      rw [scan_cons]
      cases k with
      | zero =>
        simp only [List.getElem?_cons_zero, Option.some.injEq] at ht ha
        subst ht ha
        simp [hk]
      | succ k =>
        have h0 : ¬ span_holds a0 ev.event_x := hfirst 0 (Nat.succ_pos k) a0 (by simp)
        simp only [h0, if_false]
        simp only [List.getElem?_cons_succ] at ht ha
        exact ih areas k ht ha fun j hj a' ha' =>
          hfirst (j + 1) (Nat.succ_lt_succ hj) a' (by simpa using ha')

theorem loop_nil_cursor (env : Env) (ev : xcb_button_press_event_t) (tags : List tag_t)
    (buttons : List button_t) :
    taglist_button_press_loop env ev tags buttons [] = [] := by
  induction buttons with
  | nil => simp [taglist_button_press_loop]
  | cons b rest ih =>
    simp only [taglist_button_press_loop, scan_nil_areas, ih]
    split <;> rfl

theorem loop_no_binding (env : Env) (ev : xcb_button_press_event_t) (tags : List tag_t)
    (buttons : List button_t) (areas : List area_t)
    (h : ∀ b ∈ buttons, ¬ binding_applies env ev b) :
    taglist_button_press_loop env ev tags buttons areas = [] := by
  induction buttons with
  | nil => simp [taglist_button_press_loop]
  | cons b rest ih =>
    have hb : button_matches env ev b = false := by
      have := h b (List.mem_cons_self _ _)
      rw [← button_matches_iff] at this
      simpa using this
    simp only [taglist_button_press_loop, hb]
    exact ih fun b' hb' => h b' (List.mem_cons_of_mem _ hb')

/-- The bindings before the first one that applies do not move the cursor. -/
theorem loop_first_binding (env : Env) (ev : xcb_button_press_event_t) (tags : List tag_t)
    (pre : List button_t) (b : button_t) (post : List button_t) (areas : List area_t)
    (hpre : ∀ b' ∈ pre, ¬ binding_applies env ev b') (hb : binding_applies env ev b) :
    taglist_button_press_loop env ev tags (pre ++ b :: post) areas =
      match taglist_button_press_scan ev tags areas with
      | (some tag, _) => [(b.fct, tag)]
      | (none, area') => taglist_button_press_loop env ev tags post area' := by
  induction pre with
  | nil =>
    have hb' : button_matches env ev b = true := (button_matches_iff env ev b).2 hb
    simp only [List.nil_append, taglist_button_press_loop, hb', if_true]
  | cons b0 pre ih =>
    have h0 : button_matches env ev b0 = false := by
      have := hpre b0 (List.mem_cons_self _ _)
      rw [← button_matches_iff] at this
      simpa using this
    simp only [List.cons_append, taglist_button_press_loop, h0]
    exact ih fun b' hb' => hpre b' (List.mem_cons_of_mem _ hb')

theorem loop_length_le_one (env : Env) (ev : xcb_button_press_event_t) (tags : List tag_t)
    (buttons : List button_t) (areas : List area_t) :
    (taglist_button_press_loop env ev tags buttons areas).length ≤ 1 := by
  induction buttons generalizing areas with
  | nil => simp [taglist_button_press_loop]
  | cons b rest ih =>
    simp only [taglist_button_press_loop]
    split
    · split
      · simp
      · exact ih _
    · exact ih _

theorem scan_cursor_subset (ev : xcb_button_press_event_t) (tags : List tag_t)
    (areas : List area_t) :
    ∀ a ∈ (taglist_button_press_scan ev tags areas).2, a ∈ areas := by
  induction tags generalizing areas with
  | nil => simp [scan_nil_tags]
  | cons tag tags ih =>
    cases areas with
    | nil => simp [scan_nil_areas]
    | cons area areas =>
      rw [scan_cons]
      split
      · exact fun a ha => ha
      · exact fun a ha => List.mem_cons_of_mem _ (ih areas a ha)

/-- No call is made when no area under the cursor holds `event_x`. -/
theorem loop_no_span (env : Env) (ev : xcb_button_press_event_t) (tags : List tag_t)
    (buttons : List button_t) (areas : List area_t)
    (h : ∀ a ∈ areas, ¬ span_holds a ev.event_x) :
    taglist_button_press_loop env ev tags buttons areas = [] := by
  induction buttons generalizing areas with
  | nil => simp [taglist_button_press_loop]
  | cons b rest ih =>
    simp only [taglist_button_press_loop]
    split
    · have hm := scan_miss ev tags areas h
      have hsub := scan_cursor_subset ev tags areas
      split
      · rename_i heq
        rw [heq] at hm
        simp at hm
      · rename_i heq
        rw [heq] at hsub
        exact ih _ fun a ha => h a (hsub a ha)
    · exact ih _ h

/-- C4: on a target whose cached area list is as long as the tag list,
`taglist_button_press` makes at most one call; when some binding applies and
some cached area holds `event_x`, the call is the action of the first such
binding with the tag at the index of the first such area; when no binding
applies or no area holds `event_x`, no call is made. -/
theorem taglist_button_press_routes (env : Env) (globalconf : awesome_t) (w : widget_node_t)
    (ev : xcb_button_press_event_t) (screen : Nat) (object : Nat)
    (tda : taglist_drawn_area_t)
    (hl : tda_lookup object w.widget.data.drawn_area = some tda)
    (hlen : tda.area.length = (globalconf.screens screen).tags.length) :
    ∃ calls, taglist_button_press env globalconf w ev screen object = some calls ∧
      calls.length ≤ 1 ∧
      (∀ (pre : List button_t) (b : button_t) (post : List button_t) (k : Nat) (a : area_t),
        w.widget.buttons = pre ++ b :: post →
        (∀ b' ∈ pre, ¬ binding_applies env ev b') → binding_applies env ev b →
        tda.area[k]? = some a → span_holds a ev.event_x →
        (∀ j < k, ∀ a', tda.area[j]? = some a' → ¬ span_holds a' ev.event_x) →
        ∃ tag, (globalconf.screens screen).tags[k]? = some tag ∧ calls = [(b.fct, tag)]) ∧
      ((∀ b ∈ w.widget.buttons, ¬ binding_applies env ev b) ∨
          (∀ a ∈ tda.area, ¬ span_holds a ev.event_x) →
        calls = []) := by
  refine ⟨taglist_button_press_loop env ev (globalconf.screens screen).tags w.widget.buttons
    tda.area, by simp only [taglist_button_press, hl], loop_length_le_one _ _ _ _ _, ?_, ?_⟩
  · intro pre b post k a hbs hpre hb hak hk hfirst
    have hklt : k < (globalconf.screens screen).tags.length := by
      rw [← hlen]
      exact (List.getElem?_eq_some_iff.1 hak).1
    refine ⟨(globalconf.screens screen).tags[k], List.getElem?_eq_getElem hklt, ?_⟩
    have hs := scan_hit ev (globalconf.screens screen).tags tda.area k _ a
      (List.getElem?_eq_getElem hklt) hak hk hfirst
    rw [hbs, loop_first_binding env ev _ pre b post tda.area hpre hb]
    split
    · rename_i heq
      rw [heq] at hs
      simp only [Option.some.injEq] at hs
      rw [hs]
    · rename_i heq
      rw [heq] at hs
      simp at hs
  · rintro (h | h)
    · exact loop_no_binding env ev _ _ _ h
    · exact loop_no_span env ev _ _ _ h

/-- The theorem `taglist_button_press_routes` on the drawn widget `demo_drawn`:
a click of button 1 at `event_x = 8`, inside the span `[7,9)` of the second
tag, calls the action 7 of the binding with the tag `"2"`. -/
theorem taglist_button_press_routes_witness :
    tda_lookup 42 demo_drawn.widget.data.drawn_area =
        some ⟨42, [⟨5, 0, 2, 10⟩, ⟨7, 0, 2, 10⟩, ⟨9, 0, 2, 10⟩]⟩ ∧
      taglist_button_press demo_env demo_conf demo_drawn ⟨1, 0, 8⟩ 0 42 =
        some [(7, ⟨2, "2", true⟩)] := by
  have hl : tda_lookup 42 demo_drawn.widget.data.drawn_area =
      some ⟨42, [⟨5, 0, 2, 10⟩, ⟨7, 0, 2, 10⟩, ⟨9, 0, 2, 10⟩]⟩ := by decide
  refine ⟨hl, ?_⟩
  obtain ⟨calls, hc, -, hhit, -⟩ :=
    taglist_button_press_routes demo_env demo_conf demo_drawn ⟨1, 0, 8⟩ 0 42 _ hl (by decide)
  obtain ⟨tag, ht, hcalls⟩ :=
    hhit [] ⟨1, 0, 7⟩ [] 1 ⟨7, 0, 2, 10⟩ rfl (by simp) (by decide) rfl (by decide)
      (by
        intro j hj a' ha'
        have hj0 : j = 0 := by omega
        subst hj0
        simp only [List.getElem?_cons_zero, Option.some.injEq] at ha'
        subst ha'
        decide)
  have ht' : tag = ⟨2, "2", true⟩ := by
    have : (demo_conf.screens 0).tags[1]? = some (⟨2, "2", true⟩ : tag_t) := by decide
    rw [this] at ht
    exact (Option.some.inj ht).symm
  rw [hc, hcalls, ht']

/-! ## Areas placed by a draw that skips no tag -/

theorem areas_width_sum_nonneg (areas : List area_t) (hw : ∀ a ∈ areas, 0 ≤ a.width) :
    0 ≤ (areas.map (·.width)).sum :=
  List.sum_nonneg fun x hx => by
    obtain ⟨a, ha, rfl⟩ := List.mem_map.1 hx
    exact hw a ha

/-- When no tag is filtered out, no width is negative and neither the running
width nor the positions leave the range of a C `int`, the second loop of
`taglist_draw` places the areas one after the other. -/
theorem taglist_draw_place_all (env : Env) (globalconf : awesome_t) (data : taglist_data_t)
    (wx : Int) (text : List String) (tags : List tag_t) (areas : List area_t) (i : Nat)
    (prev_width : Int) (hlen : areas.length ≤ tags.length)
    (hall : ∀ tag ∈ tags, data.show_empty = true ∨ tag.selected = true ∨
      tag_isoccupied env globalconf tag = true)
    (hw : ∀ a ∈ areas, 0 ≤ a.width)
    (hp1 : INT_MIN ≤ prev_width) (hp2 : prev_width + (areas.map (·.width)).sum ≤ INT_MAX)
    (hx1 : INT_MIN ≤ wx + prev_width)
    (hx2 : wx + prev_width + (areas.map (·.width)).sum ≤ INT_MAX) :
    (taglist_draw_place env globalconf data wx text tags areas i prev_width).1
      = areas_placed wx areas prev_width := by
  induction tags generalizing areas i prev_width with
  | nil =>
    cases areas with
    | nil => simp [taglist_draw_place, areas_placed]
    | cons area areas => simp at hlen
  | cons tag tags ih =>
    cases areas with
    | nil => simp [taglist_draw_place, areas_placed]
    | cons area areas =>
      have hc : (!data.show_empty && !tag.selected && !tag_isoccupied env globalconf tag)
          = false := by
        rcases hall tag (List.mem_cons_self _ _) with h | h | h <;> simp [h]
      have hw' : ∀ a ∈ areas, 0 ≤ a.width := fun a ha => hw a (List.mem_cons_of_mem _ ha)
      have hs := areas_width_sum_nonneg areas hw'
      have h0 := hw area (List.mem_cons_self _ _)
      simp only [List.map_cons, List.sum_cons] at hp2 hx2
      have e1 : int_add wx prev_width = wx + prev_width :=
        int_wrap_of_fits _ ⟨hx1, by omega⟩
      have e2 : int_add prev_width area.width = prev_width + area.width :=
        int_wrap_of_fits _ ⟨by omega, by omega⟩
      simp only [taglist_draw_place, hc, areas_placed, e1, e2]
      simp only [Bool.false_eq_true, if_false]
      rw [ih areas (i + 1) (prev_width + area.width) (by simpa using hlen)
        (fun t ht => hall t (List.mem_cons_of_mem _ ht)) hw' (by omega) (by omega) (by omega)
        (by omega)]

theorem areas_placed_width (wx : Int) (areas : List area_t) (prev_width : Int) :
    (areas_placed wx areas prev_width).map (·.width) = areas.map (·.width) := by
  induction areas generalizing prev_width with
  | nil => simp [areas_placed]
  | cons area areas ih => simp [areas_placed, ih]

/-- Every placed area starts at or after the start of the first one. -/
theorem areas_placed_x_ge (wx : Int) (areas : List area_t) (prev_width : Int)
    (hw : ∀ a ∈ areas, 0 ≤ a.width) :
    ∀ a ∈ areas_placed wx areas prev_width, wx + prev_width ≤ a.x := by
  induction areas generalizing prev_width with
  | nil => simp [areas_placed]
  | cons area areas ih =>
    intro a ha
    simp only [areas_placed, List.mem_cons] at ha
    rcases ha with ha | ha
    · subst ha
      exact le_refl _
    · have h1 := ih (prev_width + area.width)
        (fun a ha => hw a (List.mem_cons_of_mem _ ha)) a ha
      have h2 := hw area (List.mem_cons_self _ _)
      omega

/-- A placed area ends at or before the start of every placed area after it. -/
theorem areas_placed_ordered (wx : Int) (areas : List area_t) (prev_width : Int)
    (hw : ∀ a ∈ areas, 0 ≤ a.width) (j i : Nat) (hji : j < i) (a' a : area_t)
    (hj : (areas_placed wx areas prev_width)[j]? = some a')
    (hi : (areas_placed wx areas prev_width)[i]? = some a) :
    a'.x + a'.width ≤ a.x := by
  induction areas generalizing prev_width j i with
  | nil => simp [areas_placed] at hj
  | cons area areas ih =>
    have hw' : ∀ a ∈ areas, 0 ≤ a.width := fun a ha => hw a (List.mem_cons_of_mem _ ha)
    cases i with
    | zero => omega
    | succ i =>
      simp only [areas_placed, List.getElem?_cons_succ] at hi
      cases j with
      | zero =>
        simp only [areas_placed, List.getElem?_cons_zero, Option.some.injEq] at hj
        subst hj
        have := areas_placed_x_ge wx areas (prev_width + area.width) hw' a
          (List.getElem?_mem hi)
        simp only
        omega
      | succ j =>
        simp only [areas_placed, List.getElem?_cons_succ] at hj
        exact ih (prev_width + area.width) hw' j i (by omega) hj hi

theorem areas_placed_width_nonneg (wx : Int) (areas : List area_t) (prev_width : Int)
    (hw : ∀ a ∈ areas, 0 ≤ a.width) :
    ∀ a ∈ areas_placed wx areas prev_width, 0 ≤ a.width := by
  induction areas generalizing prev_width with
  | nil => simp [areas_placed]
  | cons area areas ih =>
    intro a ha
    simp only [areas_placed, List.mem_cons] at ha
    rcases ha with ha | ha
    · subst ha
      exact hw area (List.mem_cons_self _ _)
    · exact ih (prev_width + area.width) (fun a ha => hw a (List.mem_cons_of_mem _ ha)) a ha

/-- No placed area before the one at index `i` holds the origin of that one. -/
theorem areas_placed_first_hit (wx : Int) (areas : List area_t) (prev_width : Int)
    (hw : ∀ a ∈ areas, 0 ≤ a.width) (i : Nat) (a : area_t)
    (hi : (areas_placed wx areas prev_width)[i]? = some a) :
    ∀ j < i, ∀ a', (areas_placed wx areas prev_width)[j]? = some a' →
      ¬ span_holds a' a.x := by
  intro j hj a' ha' hs
  have := areas_placed_ordered wx areas prev_width hw j i hj a' a ha' hi
  simp only [span_holds] at hs
  omega

/-- No placed area holds a coordinate left of the origin of the first one. -/
theorem areas_placed_miss_left (wx : Int) (areas : List area_t) (prev_width : Int)
    (hw : ∀ a ∈ areas, 0 ≤ a.width) (a1 : area_t)
    (h0 : (areas_placed wx areas prev_width)[0]? = some a1) (x : Int) (hx : x < a1.x) :
    ∀ a ∈ areas_placed wx areas prev_width, ¬ span_holds a x := by
  intro a ha hs
  obtain ⟨i, hi⟩ := List.mem_iff_getElem?.1 ha
  simp only [span_holds] at hs
  rcases Nat.eq_zero_or_pos i with h | h
  · subst h
    rw [h0] at hi
    simp only [Option.some.injEq] at hi
    subst hi
    omega
  · have h1 := areas_placed_ordered wx areas prev_width hw 0 i h a1 a h0 hi
    have h2 := areas_placed_width_nonneg wx areas prev_width hw a1 (List.getElem?_mem h0)
    omega

/-- No placed area holds a coordinate at or after the end of the last one. -/
theorem areas_placed_miss_right (wx : Int) (areas : List area_t) (prev_width : Int)
    (hw : ∀ a ∈ areas, 0 ≤ a.width) (n : Nat) (hn : (areas_placed wx areas prev_width).length = n)
    (an : area_t) (hlast : (areas_placed wx areas prev_width)[n - 1]? = some an) (x : Int)
    (hx : an.x + an.width ≤ x) :
    ∀ a ∈ areas_placed wx areas prev_width, ¬ span_holds a x := by
  intro a ha hs
  obtain ⟨i, hi⟩ := List.mem_iff_getElem?.1 ha
  have hilt : i < n := by
    rw [← hn]
    exact (List.getElem?_eq_some_iff.1 hi).1
  simp only [span_holds] at hs
  rcases Nat.lt_or_ge i (n - 1) with h | h
  · have h1 := areas_placed_ordered wx areas prev_width hw i (n - 1) h a an hi hlast
    have h2 := areas_placed_width_nonneg wx areas prev_width hw an (List.getElem?_mem hlast)
    omega
  · have hin : i = n - 1 := by omega
    subst hin
    rw [hlast] at hi
    simp only [Option.some.injEq] at hi
    subst hi
    omega

theorem areas_placed_length (wx : Int) (areas : List area_t) (prev_width : Int) :
    (areas_placed wx areas prev_width).length = areas.length := by
  have := congrArg List.length (areas_placed_width wx areas prev_width)
  simpa using this

/-- The width returned by `taglist_draw` is the value of `w->area.width` after
the first loop. -/
theorem taglist_draw_ret_eq (env : Env) (globalconf : awesome_t) (screen : Nat)
    (w : widget_node_t) (width height offset : Int) (object : Nat) :
    (taglist_draw env globalconf screen w width height offset object).ret
      = tags_width env globalconf w.widget.data (globalconf.screens screen).tags := by
  simp only [taglist_draw, taglist_draw_extents_eq, tags_width]

/-- With no negative width and a sum of the widths within the range of a C
`int`, the first loop of `taglist_draw` yields the sum. -/
theorem tags_width_of_fits (env : Env) (globalconf : awesome_t) (data : taglist_data_t)
    (tags : List tag_t) (hw : ∀ tag ∈ tags, 0 ≤ (tag_extents env globalconf data tag).width)
    (hsum : (tags.map fun t => (tag_extents env globalconf data t).width).sum ≤ INT_MAX) :
    tags_width env globalconf data tags
      = (tags.map fun t => (tag_extents env globalconf data t).width).sum := by
  rw [tags_width_eq]
  refine int_wrap_of_fits _ ⟨?_, hsum⟩
  have h0 : 0 ≤ (tags.map fun t => (tag_extents env globalconf data t).width).sum :=
    List.sum_nonneg fun x hx => by
      obtain ⟨t, ht, rfl⟩ := List.mem_map.1 hx
      exact hw t ht
  unfold INT_MIN
  omega

/-- A draw that filters no tag, with no negative width, in which the sum of
the widths and the anchor plus that sum stay in the range of a C `int`, caches
the measured areas placed one after the other from the anchor. -/
theorem taglist_draw_lookup_placed (env : Env) (globalconf : awesome_t) (screen : Nat)
    (w : widget_node_t) (width height offset : Int) (object : Nat)
    (hall : ∀ tag ∈ (globalconf.screens screen).tags, w.widget.data.show_empty = true ∨
      tag.selected = true ∨ tag_isoccupied env globalconf tag = true)
    (hw : ∀ tag ∈ (globalconf.screens screen).tags,
      0 ≤ (tag_extents env globalconf w.widget.data tag).width)
    (hsum : ((globalconf.screens screen).tags.map fun t =>
      (tag_extents env globalconf w.widget.data t).width).sum ≤ INT_MAX)
    (ha1 : INT_MIN ≤ env.widget_calculate_offset width
      ((globalconf.screens screen).tags.map fun t =>
        (tag_extents env globalconf w.widget.data t).width).sum offset w.widget.align)
    (ha2 : env.widget_calculate_offset width
        ((globalconf.screens screen).tags.map fun t =>
          (tag_extents env globalconf w.widget.data t).width).sum offset w.widget.align
      + ((globalconf.screens screen).tags.map fun t =>
          (tag_extents env globalconf w.widget.data t).width).sum ≤ INT_MAX) :
    tda_lookup object
        (taglist_draw env globalconf screen w width height offset object).w.widget.data.drawn_area
      = some
        { object := object,
          area := areas_placed
            (env.widget_calculate_offset width
              ((globalconf.screens screen).tags.map fun t =>
                (tag_extents env globalconf w.widget.data t).width).sum offset w.widget.align)
            ((globalconf.screens screen).tags.map (tag_extents env globalconf w.widget.data))
            0 } := by
  have hlk := taglist_draw_lookup env globalconf screen w width height offset object
  rw [tags_width_of_fits env globalconf w.widget.data _ hw hsum] at hlk
  have hw' : ∀ a ∈ (globalconf.screens screen).tags.map (tag_extents env globalconf w.widget.data),
      0 ≤ a.width := by
    intro a ha
    obtain ⟨t, ht, rfl⟩ := List.mem_map.1 ha
    exact hw t ht
  have hmap : (((globalconf.screens screen).tags.map
        (tag_extents env globalconf w.widget.data)).map (·.width)).sum
      = ((globalconf.screens screen).tags.map fun t =>
          (tag_extents env globalconf w.widget.data t).width).sum := by
    rw [List.map_map]
    rfl
  rw [taglist_draw_place_all env globalconf w.widget.data _ _ _ _ 0 0 (by simp) hall hw'
    (by decide) (by rw [hmap]; omega) (by omega) (by rw [hmap]; omega)] at hlk
  exact hlk

/-! ## Clicks on the origin of a tag -/

/-- C5, as stated, fails on the code. With a label of width 0 (first part):
after the draw the areas of the two tags are `[5,5)` and `[5,7)`, and a click
at the cached `x = 5` of the first tag calls the action with the second tag.
With `show_empty` off (second part): the filtered tag `"1"` keeps the span
`[0,2)`, the tag `"2"` is drawn at `[1,3)`, and a click at the cached `x = 1`
of the tag `"2"` calls the action with the tag `"1"`. With three labels of
width `2^30` (third part): the running width leaves the range of a C `int`,
the last tag is cached at `x = -2147483643`, and a click at `5`, which is after
the cached `x` plus width of the last tag, calls the action with the first
tag. -/
theorem taglist_click_origin_counterexample :
    (tda_lookup 42 zero_drawn.widget.data.drawn_area =
        some ⟨42, [⟨5, 0, 0, 10⟩, ⟨5, 0, 2, 10⟩]⟩ ∧
      taglist_button_press demo_env zero_conf zero_drawn ⟨1, 0, 5⟩ 0 42 =
        some [(7, ⟨2, "ab", false⟩)]) ∧
    (tda_lookup 42 hidden_drawn.widget.data.drawn_area =
        some ⟨42, [⟨0, 0, 2, 10⟩, ⟨1, 0, 2, 10⟩, ⟨3, 0, 2, 10⟩]⟩ ∧
      taglist_button_press demo_env demo_conf hidden_drawn ⟨1, 0, 1⟩ 0 42 =
        some [(7, ⟨1, "1", false⟩)]) ∧
    (tda_lookup 42 wide_drawn.widget.data.drawn_area =
        some ⟨42, [⟨5, 0, 1073741824, 10⟩, ⟨1073741829, 0, 1073741824, 10⟩,
          ⟨-2147483643, 0, 1073741824, 10⟩]⟩ ∧
      (-2147483643 : Int) + 1073741824 ≤ 5 ∧
      taglist_button_press wide_env demo_conf wide_drawn ⟨1, 0, 5⟩ 0 42 =
        some [(7, ⟨1, "1", false⟩)]) := by
  decide

/-- C5, amended: after a `taglist_draw` in which no tag is filtered out, no
measured width is negative, and the sum of the measured widths as well as the
anchor plus that sum stay in the range of a C `int`, with a binding that
applies to the event, a click at the cached `x` of a tag whose area has
positive width calls the action of the first applying binding with that tag; a
click one left of the cached `x` of the first tag, or at or after the cached
`x` plus width of the last tag, makes no call. -/
theorem taglist_click_origin (env : Env) (globalconf : awesome_t) (screen : Nat)
    (w : widget_node_t) (width height offset : Int) (object : Nat)
    (ev : xcb_button_press_event_t) (pre : List button_t) (b : button_t)
    (post : List button_t)
    (hall : ∀ tag ∈ (globalconf.screens screen).tags, w.widget.data.show_empty = true ∨
      tag.selected = true ∨ tag_isoccupied env globalconf tag = true)
    (hw : ∀ tag ∈ (globalconf.screens screen).tags,
      0 ≤ (env.draw_text_extents globalconf.font
        (tag_markup_parse env tag (taglist_text_get env globalconf tag w.widget.data))).width)
    (hsum : ((globalconf.screens screen).tags.map fun tag =>
      (env.draw_text_extents globalconf.font
        (tag_markup_parse env tag
          (taglist_text_get env globalconf tag w.widget.data))).width).sum ≤ INT_MAX)
    (hanchor : INT_MIN ≤ env.widget_calculate_offset width
      (taglist_draw env globalconf screen w width height offset object).ret offset w.widget.align)
    (hend : env.widget_calculate_offset width
        (taglist_draw env globalconf screen w width height offset object).ret offset
        w.widget.align
      + ((globalconf.screens screen).tags.map fun tag =>
        (env.draw_text_extents globalconf.font
          (tag_markup_parse env tag
            (taglist_text_get env globalconf tag w.widget.data))).width).sum ≤ INT_MAX)
    (hbs : w.widget.buttons = pre ++ b :: post)
    (hpre : ∀ b' ∈ pre, ¬ binding_applies env ev b') (hb : binding_applies env ev b) :
    ∃ tda,
      tda_lookup object
        (taglist_draw env globalconf screen w width height offset object).w.widget.data.drawn_area
        = some tda ∧
      (∀ (i : Nat) (tag : tag_t) (a : area_t),
        (globalconf.screens screen).tags[i]? = some tag → tda.area[i]? = some a → 0 < a.width →
        taglist_button_press env globalconf
          (taglist_draw env globalconf screen w width height offset object).w
          { ev with event_x := a.x } screen object = some [(b.fct, tag)]) ∧
      (∀ a1 : area_t, tda.area[0]? = some a1 →
        taglist_button_press env globalconf
          (taglist_draw env globalconf screen w width height offset object).w
          { ev with event_x := a1.x - 1 } screen object = some []) ∧
      (∀ (an : area_t) (x : Int),
        tda.area[(globalconf.screens screen).tags.length - 1]? = some an → an.x + an.width ≤ x →
        taglist_button_press env globalconf
          (taglist_draw env globalconf screen w width height offset object).w
          { ev with event_x := x } screen object = some []) := by
  rw [taglist_draw_ret_eq, tags_width_of_fits env globalconf w.widget.data _ hw hsum]
    at hanchor hend
  have hlk := taglist_draw_lookup_placed env globalconf screen w width height offset object
    hall hw hsum hanchor hend
  have hw' : ∀ a ∈ (globalconf.screens screen).tags.map (tag_extents env globalconf w.widget.data),
      0 ≤ a.width := by
    intro a ha
    obtain ⟨t, ht, rfl⟩ := List.mem_map.1 ha
    exact hw t ht
  have hbs' : (taglist_draw env globalconf screen w width height offset object).w.widget.buttons
      = pre ++ b :: post := hbs
  refine ⟨_, hlk, ?_, ?_, ?_⟩
  · intro i tag a hti hai hpos
    simp only [taglist_button_press, hlk, hbs']
    have hpre' : ∀ b' ∈ pre, ¬ binding_applies env { ev with event_x := a.x } b' := hpre
    have hb' : binding_applies env { ev with event_x := a.x } b := hb
    rw [loop_first_binding env _ _ pre b post _ hpre' hb']
    have hs := scan_hit { ev with event_x := a.x } (globalconf.screens screen).tags _ i tag a
      hti hai (by simp only [span_holds]; omega)
      (areas_placed_first_hit _ _ _ hw' i a hai)
    split
    · rename_i heq
      rw [heq] at hs
      simp only [Option.some.injEq] at hs
      rw [hs]
    · rename_i heq
      rw [heq] at hs
      simp at hs
  · intro a1 h0
    simp only [taglist_button_press, hlk]
    rw [loop_no_span]
    exact areas_placed_miss_left _ _ _ hw' a1 h0 (a1.x - 1) (by omega)
  · intro an x hlast hx
    simp only [taglist_button_press, hlk]
    rw [loop_no_span]
    exact areas_placed_miss_right _ _ _ hw' (globalconf.screens screen).tags.length
      (by simp [areas_placed_length]) an hlast x hx

/-- The theorem `taglist_click_origin` on the widget `demo_w`, drawn for object
42 at offset 5 with every tag shown: a click of button 1 at the cached `x = 7`
of the tag `"2"` calls the action 7 with the tag `"2"`. -/
theorem taglist_click_origin_witness :
    (∀ tag ∈ (demo_conf.screens 0).tags, demo_w.widget.data.show_empty = true ∨
      tag.selected = true ∨ tag_isoccupied demo_env demo_conf tag = true) ∧
    taglist_button_press demo_env demo_conf demo_drawn ⟨1, 0, 7⟩ 0 42 =
      some [(7, ⟨2, "2", true⟩)] := by
  have hall : ∀ tag ∈ (demo_conf.screens 0).tags, demo_w.widget.data.show_empty = true ∨
      tag.selected = true ∨ tag_isoccupied demo_env demo_conf tag = true := by decide
  refine ⟨hall, ?_⟩
  obtain ⟨tda, hl, hhit, -, -⟩ :=
    taglist_click_origin demo_env demo_conf 0 demo_w 100 12 5 42 ⟨1, 0, 0⟩ [] ⟨1, 0, 7⟩ []
      hall (by decide) (by decide) (by decide) (by decide) rfl (by simp) (by decide)
  have hl' : tda_lookup 42
      (taglist_draw demo_env demo_conf 0 demo_w 100 12 5 42).w.widget.data.drawn_area =
      some ⟨42, [⟨5, 0, 2, 10⟩, ⟨7, 0, 2, 10⟩, ⟨9, 0, 2, 10⟩]⟩ := by decide
  rw [hl'] at hl
  simp only [Option.some.injEq] at hl
  subst hl
  exact hhit 1 ⟨2, "2", true⟩ ⟨7, 0, 2, 10⟩ (by decide) (by decide) (by decide)

/-! ## The shared cursor and a router that restarts the walk -/

theorem router_restart_no_binding (env : Env) (ev : xcb_button_press_event_t)
    (tags : List tag_t) (areas : List area_t) (buttons : List button_t)
    (h : ∀ b ∈ buttons, ¬ binding_applies env ev b) :
    router_restart env ev tags areas buttons = [] := by
  induction buttons with
  | nil => simp [router_restart]
  | cons b rest ih =>
    simp only [router_restart, h b (List.mem_cons_self _ _), if_false]
    exact ih fun b' hb' => h b' (List.mem_cons_of_mem _ hb')

theorem router_restart_scan_none (env : Env) (ev : xcb_button_press_event_t)
    (tags : List tag_t) (areas : List area_t) (buttons : List button_t)
    (h : (taglist_button_press_scan ev tags areas).1 = none) :
    router_restart env ev tags areas buttons = [] := by
  induction buttons with
  | nil => simp [router_restart]
  | cons b rest ih =>
    simp only [router_restart, h, ih]
    split <;> rfl

theorem router_restart_first_binding (env : Env) (ev : xcb_button_press_event_t)
    (tags : List tag_t) (areas : List area_t) (pre : List button_t) (b : button_t)
    (post : List button_t)
    (hpre : ∀ b' ∈ pre, ¬ binding_applies env ev b') (hb : binding_applies env ev b) :
    router_restart env ev tags areas (pre ++ b :: post) =
      match (taglist_button_press_scan ev tags areas).1 with
      | some tag => [(b.fct, tag)]
      | none => [] := by
  induction pre with
  | nil =>
    simp only [List.nil_append, router_restart, hb, if_true]
    split
    · rfl
    · rename_i heq
      exact router_restart_scan_none env ev tags areas post heq
  | cons b0 pre ih =>
    simp only [List.cons_append, router_restart, hpre b0 (List.mem_cons_self _ _), if_false]
    exact ih fun b' hb' => hpre b' (List.mem_cons_of_mem _ hb')

/-- When the cached area list is not longer than the tag list, the shared
cursor of `taglist_button_press_loop` routes as the restarting router does. -/
theorem loop_eq_router_restart (env : Env) (ev : xcb_button_press_event_t)
    (tags : List tag_t) (areas : List area_t) (buttons : List button_t)
    (hlen : areas.length ≤ tags.length) :
    taglist_button_press_loop env ev tags buttons areas
      = router_restart env ev tags areas buttons := by
  induction buttons with
  | nil => simp [taglist_button_press_loop, router_restart]
  | cons b rest ih =>
    by_cases hb : binding_applies env ev b
    · have hb' : button_matches env ev b = true := (button_matches_iff env ev b).2 hb
      simp only [taglist_button_press_loop, router_restart, hb, hb', if_true]
      cases hs : (taglist_button_press_scan ev tags areas).1 with
      | none =>
        rw [scan_none_cursor ev tags areas hlen hs]
        simp only [loop_nil_cursor]
        exact (router_restart_scan_none env ev tags areas rest hs).symm
      | some tag =>
        have : taglist_button_press_scan ev tags areas
            = (some tag, (taglist_button_press_scan ev tags areas).2) := by
          rw [← hs]
        rw [this]
    · have hb' : button_matches env ev b = false := by
        rw [← button_matches_iff] at hb
        simpa using hb
      simp only [taglist_button_press_loop, router_restart, hb, hb', if_false]
      exact ih

/-- C6: with a binding `B` that has an action, every other binding being on a
different button, a click with the button and modifiers of `B` whose `event_x`
is held first by the cached area of the tag `Tk` calls the action of `B` with
`Tk`, and this is what the router that restarts the walk for each binding
does. -/
theorem taglist_button_press_other_buttons (env : Env) (globalconf : awesome_t)
    (w : widget_node_t) (ev : xcb_button_press_event_t) (screen : Nat) (object : Nat)
    (tda : taglist_drawn_area_t) (pre : List button_t) (B : button_t) (post : List button_t)
    (k : Nat) (Tk : tag_t) (a : area_t)
    (hl : tda_lookup object w.widget.data.drawn_area = some tda)
    (hbs : w.widget.buttons = pre ++ B :: post)
    (hfct : B.fct ≠ 0)
    (hother : ∀ b ∈ pre ++ post, b.button ≠ B.button)
    (hbutton : ev.detail = B.button) (hmod : env.CLEANMASK ev.state = B.mod)
    (htag : (globalconf.screens screen).tags[k]? = some Tk)
    (harea : tda.area[k]? = some a) (hk : span_holds a ev.event_x)
    (hfirst : ∀ j < k, ∀ a', tda.area[j]? = some a' → ¬ span_holds a' ev.event_x) :
    taglist_button_press env globalconf w ev screen object = some [(B.fct, Tk)] ∧
    taglist_button_press env globalconf w ev screen object =
      some (router_restart env ev (globalconf.screens screen).tags tda.area w.widget.buttons) := by
  have hpre : ∀ b' ∈ pre, ¬ binding_applies env ev b' := by
    intro b' hb' happ
    exact hother b' (List.mem_append_left _ hb') (happ.1.symm.trans hbutton)
  have hB : binding_applies env ev B := ⟨hbutton, hmod, hfct⟩
  have hs := scan_hit ev (globalconf.screens screen).tags tda.area k Tk a htag harea hk hfirst
  have hcode : taglist_button_press env globalconf w ev screen object = some [(B.fct, Tk)] := by
    simp only [taglist_button_press, hl, hbs]
    rw [loop_first_binding env ev _ pre B post tda.area hpre hB]
    split
    · rename_i heq
      rw [heq] at hs
      simp only [Option.some.injEq] at hs
      rw [hs]
    · rename_i heq
      rw [heq] at hs
      simp at hs
  refine ⟨hcode, ?_⟩
  rw [hcode, hbs, router_restart_first_binding env ev _ _ pre B post hpre hB, hs]

/-- The theorem `taglist_button_press_other_buttons` on the drawn widget
`demo_multi`, whose binding on button 1 stands between bindings on the buttons
3 and 2: a click of button 1 at `event_x = 10`, in the span `[9,11)` of the tag
`"3"`, calls the action 7 with the tag `"3"`. -/
theorem taglist_button_press_other_buttons_witness :
    tda_lookup 42 demo_multi.widget.data.drawn_area =
        some ⟨42, [⟨5, 0, 2, 10⟩, ⟨7, 0, 2, 10⟩, ⟨9, 0, 2, 10⟩]⟩ ∧
      taglist_button_press demo_env demo_conf demo_multi ⟨1, 0, 10⟩ 0 42 =
        some [(7, ⟨3, "3", false⟩)] := by
  have hl : tda_lookup 42 demo_multi.widget.data.drawn_area =
      some ⟨42, [⟨5, 0, 2, 10⟩, ⟨7, 0, 2, 10⟩, ⟨9, 0, 2, 10⟩]⟩ := by decide
  refine ⟨hl, ?_⟩
  exact (taglist_button_press_other_buttons demo_env demo_conf demo_multi ⟨1, 0, 10⟩ 0 42 _
    [⟨3, 0, 9⟩] ⟨1, 0, 7⟩ [⟨2, 0, 8⟩] 2 ⟨3, "3", false⟩ ⟨9, 0, 2, 10⟩ hl rfl (by decide)
    (by decide) rfl rfl (by decide) rfl (by decide)
    (by
      intro j hj a' ha'
      have hj' : j = 0 ∨ j = 1 := by omega
      rcases hj' with h | h <;> subst h <;>
        simp only [List.getElem?_cons_zero, List.getElem?_cons_succ, Option.some.injEq] at ha' <;>
        subst ha' <;> decide)).1

/-! ## A click on an object that has no cache entry -/

/-- C7: when the cache has no entry for the object, the lookup loop of
`taglist_button_press` ends with `tda == NULL` and the next statement reads
`tda->area`: the call does not complete. -/
theorem taglist_button_press_no_entry (env : Env) (globalconf : awesome_t)
    (w : widget_node_t) (ev : xcb_button_press_event_t) (screen : Nat) (object : Nat)
    (h : tda_lookup object w.widget.data.drawn_area = none) :
    taglist_button_press env globalconf w ev screen object = none := by
  simp only [taglist_button_press, h]

/-- The theorem `taglist_button_press_no_entry` on the widget `demo_w`, which
has never been drawn: a click of button 1 does not complete. -/
theorem taglist_button_press_no_entry_witness :
    tda_lookup 42 demo_w.widget.data.drawn_area = none ∧
      taglist_button_press demo_env demo_conf demo_w ⟨1, 0, 5⟩ 0 42 = none :=
  ⟨by decide, taglist_button_press_no_entry demo_env demo_conf demo_w ⟨1, 0, 5⟩ 0 42 (by decide)⟩

/-! ## Properties set with `taglist_tell` -/

/-- C8: for a property name other than the four recognised ones `taglist_tell`
returns `WIDGET_ERROR` and leaves the widget data (templates, `show_empty` and
cache) as it was; for each of the four recognised names it returns
`WIDGET_NOERROR`. -/
theorem taglist_tell_status (env : Env) (d : taglist_data_t) (new_value : String) :
    (∀ property : String, property ≠ "text_normal" → property ≠ "text_focus" →
      property ≠ "text_urgent" → property ≠ "show_empty" →
      taglist_tell env d property new_value = (widget_tell_status_t.WIDGET_ERROR, d)) ∧
    (taglist_tell env d "text_normal" new_value).1 = widget_tell_status_t.WIDGET_NOERROR ∧
    (taglist_tell env d "text_focus" new_value).1 = widget_tell_status_t.WIDGET_NOERROR ∧
    (taglist_tell env d "text_urgent" new_value).1 = widget_tell_status_t.WIDGET_NOERROR ∧
    (taglist_tell env d "show_empty" new_value).1 = widget_tell_status_t.WIDGET_NOERROR := by
  refine ⟨fun property h1 h2 h3 h4 => ?_, ?_, ?_, ?_, ?_⟩
  · simp [taglist_tell, h1, h2, h3, h4]
  all_goals simp [taglist_tell]

/-- The theorem `taglist_tell_status` on the unknown property `"text_color"`:
the call returns `WIDGET_ERROR` and the data is unchanged. -/
theorem taglist_tell_status_witness :
    taglist_tell demo_env demo_data "text_color" "red" =
      (widget_tell_status_t.WIDGET_ERROR, demo_data) :=
  (taglist_tell_status demo_env demo_data "red").1 "text_color"
    (by decide) (by decide) (by decide) (by decide)

/-- C9: for each recognised property name `taglist_tell` changes only the field
that the name designates: one of the three templates becomes a copy of the
value, or `show_empty` becomes the boolean parsed from the value; the other
fields of the widget data, the cache among them, are unchanged. -/
theorem taglist_tell_frame (env : Env) (d : taglist_data_t) (new_value : String) :
    (taglist_tell env d "text_normal" new_value).2 = { d with text_normal := new_value } ∧
    (taglist_tell env d "text_focus" new_value).2 = { d with text_focus := new_value } ∧
    (taglist_tell env d "text_urgent" new_value).2 = { d with text_urgent := new_value } ∧
    (taglist_tell env d "show_empty" new_value).2 =
      { d with show_empty := env.a_strtobool new_value } := by
  refine ⟨?_, ?_, ?_, ?_⟩ <;> simp [taglist_tell, a_strdup]

/-! ## The text drawn for a tag -/

/-- A tag that is not filtered out has its text, the entry of the `text` array
at its index, drawn on its cached area. -/
theorem taglist_draw_place_drawn (env : Env) (globalconf : awesome_t) (data : taglist_data_t)
    (wx : Int) (text : List String) (tags : List tag_t) (areas : List area_t) (i : Nat)
    (prev_width : Int) (k : Nat) (tag : tag_t)
    (ht : tags[k]? = some tag) (hk : k < areas.length)
    (hshow : data.show_empty = true ∨ tag.selected = true ∨
      tag_isoccupied env globalconf tag = true) :
    ∃ a, (taglist_draw_place env globalconf data wx text tags areas i prev_width).1[k]? = some a ∧
      draw_cmd.draw_text a (text.getD (i + k) "") ∈
        (taglist_draw_place env globalconf data wx text tags areas i prev_width).2 := by
  induction tags generalizing areas i prev_width k with
  | nil => simp at ht
  | cons t tags ih =>
    cases areas with
    | nil => simp at hk
    | cons a0 areas =>
      cases k with
      | zero =>
        simp only [List.getElem?_cons_zero, Option.some.injEq] at ht
        subst ht
        have hc : (!data.show_empty && !t.selected && !tag_isoccupied env globalconf t)
            = false := by
          rcases hshow with h | h | h <;> simp [h]
        simp only [taglist_draw_place, hc]
        simp
      | succ k =>
        simp only [List.getElem?_cons_succ] at ht
        have hk' : k < areas.length := by simpa using hk
        have e : i + (k + 1) = i + 1 + k := by omega
        rw [e]
        simp only [taglist_draw_place]
        split
        · obtain ⟨a, h1, h2⟩ := ih areas (i + 1) prev_width k ht hk'
          exact ⟨a, by simpa using h1, h2⟩
        · obtain ⟨a, h1, h2⟩ := ih areas (i + 1) (int_add prev_width a0.width) k ht hk'
          refine ⟨a, by simpa using h1, ?_⟩
          simp only [List.cons_append, List.mem_cons, List.mem_append]
          exact Or.inr (Or.inr h2)

/-- C10: after `taglist_tell` of `"text_focus"` with the value `X`, whatever
the three templates were before, `taglist_draw` measures for a selected tag the
markup expansion of `X` with the escaped name of the tag, or `X` itself when
the expansion fails, and draws that text on the area cached for the tag. -/
theorem taglist_tell_focus_then_draw (env : Env) (globalconf : awesome_t) (screen : Nat)
    (w : widget_node_t) (width height offset : Int) (object : Nat) (X : String)
    (i : Nat) (tag : tag_t)
    (hi : (globalconf.screens screen).tags[i]? = some tag) (hsel : tag.selected = true) :
    (taglist_draw_extents env globalconf (taglist_tell env w.widget.data "text_focus" X).2
        (globalconf.screens screen).tags { text := [], area := [], width := 0 }).text[i]?
      = some (match env.markup_parse (env.g_markup_escape_text tag.name) X with
          | some text => text
          | none => X) ∧
    ∃ tda a,
      tda_lookup object
        (taglist_draw env globalconf screen
          { w with widget :=
            { w.widget with data := (taglist_tell env w.widget.data "text_focus" X).2 } }
          width height offset object).w.widget.data.drawn_area = some tda ∧
      tda.area[i]? = some a ∧
      a.width = (env.draw_text_extents globalconf.font
        (match env.markup_parse (env.g_markup_escape_text tag.name) X with
          | some text => text
          | none => X)).width ∧
      draw_cmd.draw_text a
        (match env.markup_parse (env.g_markup_escape_text tag.name) X with
          | some text => text
          | none => X) ∈
        (taglist_draw env globalconf screen
          { w with widget :=
            { w.widget with data := (taglist_tell env w.widget.data "text_focus" X).2 } }
          width height offset object).cmds := by
  have hd : (taglist_tell env w.widget.data "text_focus" X).2
      = { w.widget.data with text_focus := X } := by
    simp [taglist_tell, a_strdup]
  have hlabel : tag_label env globalconf { w.widget.data with text_focus := X } tag
      = (match env.markup_parse (env.g_markup_escape_text tag.name) X with
          | some text => text
          | none => X) := by
    simp only [tag_label, taglist_text_get, hsel, if_true, tag_markup_parse, a_strdup]
  have hilt : i < (globalconf.screens screen).tags.length := (List.getElem?_eq_some_iff.1 hi).1
  have htext : ((globalconf.screens screen).tags.map
      (tag_label env globalconf { w.widget.data with text_focus := X }))[i]?
      = some (tag_label env globalconf { w.widget.data with text_focus := X } tag) := by
    simp [hi]
  rw [hd]
  refine ⟨?_, ?_⟩
  · rw [taglist_draw_extents_eq, ← hlabel]
    simpa using htext
  · have hlk := taglist_draw_lookup env globalconf screen
      { w with widget := { w.widget with data := { w.widget.data with text_focus := X } } }
      width height offset object
    obtain ⟨a, ha, hcmd⟩ := taglist_draw_place_drawn env globalconf
      { w.widget.data with text_focus := X }
      (env.widget_calculate_offset width
        (tags_width env globalconf { w.widget.data with text_focus := X } (globalconf.screens screen).tags)
        offset w.widget.align)
      ((globalconf.screens screen).tags.map
        (tag_label env globalconf { w.widget.data with text_focus := X }))
      (globalconf.screens screen).tags
      ((globalconf.screens screen).tags.map
        (tag_extents env globalconf { w.widget.data with text_focus := X }))
      0 0 i tag hi (by simpa using hilt) (Or.inr (Or.inl hsel))
    refine ⟨_, a, hlk, ha, ?_, ?_⟩
    · have hwid := taglist_draw_place_width env globalconf
        { w.widget.data with text_focus := X }
        (env.widget_calculate_offset width
          (tags_width env globalconf { w.widget.data with text_focus := X } (globalconf.screens screen).tags)
          offset w.widget.align)
        ((globalconf.screens screen).tags.map
          (tag_label env globalconf { w.widget.data with text_focus := X }))
        (globalconf.screens screen).tags
        ((globalconf.screens screen).tags.map
          (tag_extents env globalconf { w.widget.data with text_focus := X }))
        0 0
      have h1 := congrArg (fun l => l[i]?) hwid
      simp only [List.getElem?_map, ha, hi, Option.map_some'] at h1
      rw [← hlabel]
      exact Option.some.inj h1
    · rw [← hlabel]
      have hget : ((globalconf.screens screen).tags.map
          (tag_label env globalconf { w.widget.data with text_focus := X })).getD (0 + i) ""
          = tag_label env globalconf { w.widget.data with text_focus := X } tag := by
        rw [Nat.zero_add, List.getD_eq_getElem?_getD, htext]
        rfl
      rw [hget] at hcmd
      simpa [taglist_draw, taglist_draw_extents_eq, tag_extents, tag_label] using hcmd

/-- The theorem `taglist_tell_focus_then_draw` on the widget `demo_w` and the
selected tag `"2"`: after `text_focus` is set to `"F:"` the text measured for
the tag is `"F:2"`. -/
theorem taglist_tell_focus_then_draw_witness :
    (demo_conf.screens 0).tags[1]? = some (⟨2, "2", true⟩ : tag_t) ∧
    (taglist_draw_extents demo_env demo_conf
        (taglist_tell demo_env demo_w.widget.data "text_focus" "F:").2
        (demo_conf.screens 0).tags { text := [], area := [], width := 0 }).text[1]?
      = some "F:2" :=
  ⟨by decide,
   (taglist_tell_focus_then_draw demo_env demo_conf 0 demo_w 100 12 5 42 "F:" 1 ⟨2, "2", true⟩
    (by decide) rfl).1⟩

/-! ## The position of a drawn tag -/

theorem tag_shown_filter (env : Env) (globalconf : awesome_t) (data : taglist_data_t)
    (tag : tag_t) :
    (!data.show_empty && !tag.selected && !tag_isoccupied env globalconf tag)
      = !tag_shown env globalconf data tag := by
  simp [tag_shown, Bool.and_assoc]

/-- The second loop on the measured areas of the tags: a tag that is not
filtered out gets `wx` plus `prev_width` plus the widths of the tags before it
that are not filtered out, taken into the range of a C `int`, and keeps its
width. -/
theorem taglist_draw_place_x (env : Env) (globalconf : awesome_t) (data : taglist_data_t)
    (wx : Int) (text : List String) (f : tag_t → area_t) (tags : List tag_t) (i : Nat)
    (prev_width : Int) (k : Nat) (tag : tag_t)
    (ht : tags[k]? = some tag) (hshow : tag_shown env globalconf data tag = true) :
    ∃ a, (taglist_draw_place env globalconf data wx text tags (tags.map f) i prev_width).1[k]?
        = some a ∧
      a.x = int_wrap (wx + (prev_width +
        (((tags.take k).filter (tag_shown env globalconf data)).map fun t => (f t).width).sum)) ∧
      a.width = (f tag).width := by
  induction tags generalizing i prev_width k with
  | nil => simp at ht
  | cons t tags ih =>
    cases k with
    | zero =>
      simp only [List.getElem?_cons_zero, Option.some.injEq] at ht
      subst ht
      simp only [List.map_cons, taglist_draw_place, tag_shown_filter, hshow]
      simp [int_add]
    | succ k =>
      simp only [List.getElem?_cons_succ] at ht
      by_cases hs : tag_shown env globalconf data t = true
      · obtain ⟨a, h1, h2, h3⟩ := ih (i + 1) (int_add prev_width (f t).width) k ht
        refine ⟨a, ?_, ?_, h3⟩
        · simp only [List.map_cons, taglist_draw_place, tag_shown_filter, hs]
          simpa using h1
        · rw [h2]
          simp only [List.take_succ_cons, List.filter_cons, hs, if_true, List.map_cons,
            List.sum_cons]
          generalize ((List.filter (tag_shown env globalconf data) (List.take k tags)).map
            fun t => (f t).width).sum = S
          unfold int_add int_wrap
          omega
      · obtain ⟨a, h1, h2, h3⟩ := ih (i + 1) prev_width k ht
        have hs' : tag_shown env globalconf data t = false := by simpa using hs
        refine ⟨a, ?_, ?_, h3⟩
        · simp only [List.map_cons, taglist_draw_place, tag_shown_filter, hs']
          simpa using h1
        · rw [h2]
          simp [List.filter_cons, hs']

/-- C11, as stated, fails on the code: in the draw with three labels of width
`2^30` at the anchor 5 the third tag is shown, the anchor plus the widths of
the two tags before it is `2147483653`, which is not a C `int`, and the cached
`x` of the third tag is `-2147483643`. -/
theorem taglist_draw_x_counterexample :
    demo_w.widget.data.show_empty = true ∧
    wide_env.widget_calculate_offset 100
        (taglist_draw wide_env demo_conf 0 demo_w 100 12 5 42).ret 5 demo_w.widget.align = 5 ∧
    ((((demo_conf.screens 0).tags.take 2).filter fun t =>
        demo_w.widget.data.show_empty || t.selected || tag_isoccupied wide_env demo_conf t).map
      fun t => (wide_env.draw_text_extents demo_conf.font
        (tag_markup_parse wide_env t
          (taglist_text_get wide_env demo_conf t demo_w.widget.data))).width).sum
      = 2147483648 ∧
    tda_lookup 42 wide_drawn.widget.data.drawn_area =
      some ⟨42, [⟨5, 0, 1073741824, 10⟩, ⟨1073741829, 0, 1073741824, 10⟩,
        ⟨-2147483643, 0, 1073741824, 10⟩]⟩ := by
  decide

/-- C11, amended: in every draw, a tag that is not filtered out (`show_empty`
is on, or the tag is selected, or the tag is occupied) gets the cached `x`
equal to the value of `widget_calculate_offset` for the available width, the
total width, the offset and the alignment, plus the sum of the measured widths
of the tags before it in tag order that are not filtered out, taken modulo
`2^32` into the range of a C `int`; the cached `x` is that sum itself whenever
the sum lies in the range of a C `int`. Filtered tags add nothing. -/
theorem taglist_draw_x (env : Env) (globalconf : awesome_t) (screen : Nat)
    (w : widget_node_t) (width height offset : Int) (object : Nat) (k : Nat) (tag : tag_t)
    (ht : (globalconf.screens screen).tags[k]? = some tag)
    (hshow : w.widget.data.show_empty = true ∨ tag.selected = true ∨
      tag_isoccupied env globalconf tag = true) :
    ∃ tda a,
      tda_lookup object
        (taglist_draw env globalconf screen w width height offset object).w.widget.data.drawn_area
        = some tda ∧
      tda.area[k]? = some a ∧
      a.x =
        int_wrap
          (env.widget_calculate_offset width
              (taglist_draw env globalconf screen w width height offset object).ret
              offset w.widget.align +
            ((((globalconf.screens screen).tags.take k).filter fun t =>
                w.widget.data.show_empty || t.selected || tag_isoccupied env globalconf t).map
              fun t => (env.draw_text_extents globalconf.font
                (tag_markup_parse env t
                  (taglist_text_get env globalconf t w.widget.data))).width).sum) ∧
      (INT_MIN ≤
          env.widget_calculate_offset width
              (taglist_draw env globalconf screen w width height offset object).ret
              offset w.widget.align +
            ((((globalconf.screens screen).tags.take k).filter fun t =>
                w.widget.data.show_empty || t.selected || tag_isoccupied env globalconf t).map
              fun t => (env.draw_text_extents globalconf.font
                (tag_markup_parse env t
                  (taglist_text_get env globalconf t w.widget.data))).width).sum ∧
        env.widget_calculate_offset width
              (taglist_draw env globalconf screen w width height offset object).ret
              offset w.widget.align +
            ((((globalconf.screens screen).tags.take k).filter fun t =>
                w.widget.data.show_empty || t.selected || tag_isoccupied env globalconf t).map
              fun t => (env.draw_text_extents globalconf.font
                (tag_markup_parse env t
                  (taglist_text_get env globalconf t w.widget.data))).width).sum ≤ INT_MAX →
        a.x =
          env.widget_calculate_offset width
              (taglist_draw env globalconf screen w width height offset object).ret
              offset w.widget.align +
            ((((globalconf.screens screen).tags.take k).filter fun t =>
                w.widget.data.show_empty || t.selected || tag_isoccupied env globalconf t).map
              fun t => (env.draw_text_extents globalconf.font
                (tag_markup_parse env t
                  (taglist_text_get env globalconf t w.widget.data))).width).sum) := by
  have hs : tag_shown env globalconf w.widget.data tag = true := by
    rcases hshow with h | h | h <;> simp [tag_shown, h]
  have hlk := taglist_draw_lookup env globalconf screen w width height offset object
  obtain ⟨a, h1, h2, -⟩ := taglist_draw_place_x env globalconf w.widget.data
    (env.widget_calculate_offset width
      (tags_width env globalconf w.widget.data (globalconf.screens screen).tags)
      offset w.widget.align)
    ((globalconf.screens screen).tags.map (tag_label env globalconf w.widget.data))
    (tag_extents env globalconf w.widget.data) (globalconf.screens screen).tags 0 0 k tag ht hs
  rw [zero_add] at h2
  have hx : a.x =
      int_wrap
        (env.widget_calculate_offset width
            (taglist_draw env globalconf screen w width height offset object).ret
            offset w.widget.align +
          ((((globalconf.screens screen).tags.take k).filter fun t =>
              w.widget.data.show_empty || t.selected || tag_isoccupied env globalconf t).map
            fun t => (env.draw_text_extents globalconf.font
              (tag_markup_parse env t
                (taglist_text_get env globalconf t w.widget.data))).width).sum) := by
    rw [h2, taglist_draw_ret_eq]
    rfl
  refine ⟨_, a, hlk, h1, hx, fun hfit => ?_⟩
  rw [hx]
  exact int_wrap_of_fits _ hfit

/-- The theorem `taglist_draw_x` on the draw of `hidden_drawn` (`show_empty`
off, offset 1) and the occupied tag `"3"`: the filtered tag `"1"` adds nothing,
so the cached `x` is `1 + 2`, the anchor plus the width of the tag `"2"`. -/
theorem taglist_draw_x_witness :
    tag_isoccupied demo_env demo_conf ⟨3, "3", false⟩ = true ∧
    ∃ tda a,
      tda_lookup 42 hidden_drawn.widget.data.drawn_area = some tda ∧
      tda.area[2]? = some a ∧ a.x = 3 := by
  refine ⟨by decide, ?_⟩
  obtain ⟨tda, a, h1, h2, -, h3⟩ :=
    taglist_draw_x demo_env demo_conf 0
      { demo_w with widget := { demo_w.widget with data := { demo_data with show_empty := false } } }
      100 12 1 42 2 ⟨3, "3", false⟩ (by decide) (Or.inr (Or.inr (by decide)))
  refine ⟨tda, a, h1, h2, ?_⟩
  rw [h3 (by decide)]
  decide

/-! ## What a draw sends to the drawing layer -/

theorem tda_store_objects (object : Nat) (area : List area_t) (l : List taglist_drawn_area_t) :
    (tda_store object area l).map (·.object) = l.map (·.object) := by
  induction l with
  | nil => simp [tda_store]
  | cons tda rest ih =>
    by_cases ho : tda.object = object
    · simp [tda_store, ho]
    · simp [tda_store, ho, ih]

theorem tda_lookup_store_other (object other : Nat) (area : List area_t)
    (l : List taglist_drawn_area_t) (h : other ≠ object) :
    tda_lookup other (tda_store object area l) = tda_lookup other l := by
  induction l with
  | nil => simp [tda_store]
  | cons tda rest ih =>
    by_cases ho : tda.object = object
    · have hne : ¬ object = other := fun e => h e.symm
      simp [tda_store, tda_lookup, ho, hne]
    · simp only [tda_store, ho, if_false, tda_lookup, ih]

theorem tda_lookup_eq_none_iff (object : Nat) (l : List taglist_drawn_area_t) :
    tda_lookup object l = none ↔ object ∉ l.map (·.object) := by
  induction l with
  | nil => simp [tda_lookup]
  | cons tda rest ih =>
    by_cases ho : tda.object = object
    · simp [tda_lookup, ho]
    · have ho' : ¬ object = tda.object := fun e => ho e.symm
      simp [tda_lookup, ho, ho', ih]

/-- The cache after `taglist_draw`: the areas of the draw stored in the entry
of the object, which is pushed first when the lookup finds none. -/
theorem taglist_draw_cache (env : Env) (globalconf : awesome_t) (screen : Nat)
    (w : widget_node_t) (width height offset : Int) (object : Nat) :
    ∃ areas,
      (taglist_draw env globalconf screen w width height offset object).w.widget.data.drawn_area
        = tda_store object areas
          (match tda_lookup object w.widget.data.drawn_area with
            | some _ => w.widget.data.drawn_area
            | none => { object := object, area := [] } :: w.widget.data.drawn_area) :=
  ⟨_, rfl⟩

/-- The objects of the cache entries after `taglist_draw`: the old ones, with
the drawn object in front when it had no entry. -/
theorem taglist_draw_objects (env : Env) (globalconf : awesome_t) (screen : Nat)
    (w : widget_node_t) (width height offset : Int) (object : Nat) :
    (taglist_draw env globalconf screen w width height offset
        object).w.widget.data.drawn_area.map (·.object)
      = match tda_lookup object w.widget.data.drawn_area with
        | some _ => w.widget.data.drawn_area.map (·.object)
        | none => object :: w.widget.data.drawn_area.map (·.object) := by
  obtain ⟨areas, h⟩ := taglist_draw_cache env globalconf screen w width height offset object
  rw [h, tda_store_objects]
  cases tda_lookup object w.widget.data.drawn_area <;> simp

theorem taglist_draw_objects_mem (env : Env) (globalconf : awesome_t) (screen : Nat)
    (w : widget_node_t) (width height offset : Int) (object : Nat) (o : Nat) :
    o ∈ (taglist_draw env globalconf screen w width height offset
        object).w.widget.data.drawn_area.map (·.object)
      ↔ o = object ∨ o ∈ w.widget.data.drawn_area.map (·.object) := by
  rw [taglist_draw_objects]
  cases h : tda_lookup object w.widget.data.drawn_area with
  | none => simp
  | some tda =>
    have hm : object ∈ w.widget.data.drawn_area.map (·.object) := by
      by_contra hn
      rw [← tda_lookup_eq_none_iff, h] at hn
      simp at hn
    constructor
    · exact fun ho => Or.inr ho
    · rintro (rfl | ho)
      · exact hm
      · exact ho

theorem taglist_draw_objects_nodup (env : Env) (globalconf : awesome_t) (screen : Nat)
    (w : widget_node_t) (width height offset : Int) (object : Nat)
    (hnd : (w.widget.data.drawn_area.map (·.object)).Nodup) :
    ((taglist_draw env globalconf screen w width height offset
        object).w.widget.data.drawn_area.map (·.object)).Nodup := by
  rw [taglist_draw_objects]
  cases h : tda_lookup object w.widget.data.drawn_area with
  | none => exact List.nodup_cons.2 ⟨(tda_lookup_eq_none_iff _ _).1 h, hnd⟩
  | some tda => exact hnd

/-- After a sequence of draws the cache has one entry per object already cached
or drawn in the sequence. -/
theorem taglist_draws_objects (env : Env) (w : widget_node_t) (calls : List draw_call)
    (hnd : (w.widget.data.drawn_area.map (·.object)).Nodup) :
    ((taglist_draws env w calls).widget.data.drawn_area.map (·.object)).Nodup ∧
    ∀ o, o ∈ (taglist_draws env w calls).widget.data.drawn_area.map (·.object) ↔
      o ∈ w.widget.data.drawn_area.map (·.object) ∨ o ∈ calls.map (·.object) := by
  induction calls generalizing w with
  | nil => simp [taglist_draws, hnd]
  | cons c calls ih =>
    obtain ⟨h1, h2⟩ := ih
      (taglist_draw env c.globalconf c.screen w c.width c.height c.offset c.object).w
      (taglist_draw_objects_nodup env c.globalconf c.screen w c.width c.height c.offset
        c.object hnd)
    refine ⟨h1, fun o => ?_⟩
    simp only [taglist_draws]
    rw [h2 o, taglist_draw_objects_mem]
    simp only [List.map_cons, List.mem_cons]
    tauto

/-- C13: `taglist_draw` for an object leaves the cached areas of every other
object as they were and removes no entry; it puts one new entry in the cache
when the object had none and no new entry when it had one. Hence, from a cache
with one entry per object, any sequence of draws leads to a cache with one
entry per object that was cached before or drawn in the sequence. -/
theorem taglist_draw_cache_frame :
    (∀ (env : Env) (globalconf : awesome_t) (screen : Nat) (w : widget_node_t)
      (width height offset : Int) (object : Nat),
      (∀ other, other ≠ object →
        tda_lookup other
          (taglist_draw env globalconf screen w width height offset
            object).w.widget.data.drawn_area
          = tda_lookup other w.widget.data.drawn_area) ∧
      (taglist_draw env globalconf screen w width height offset
          object).w.widget.data.drawn_area.map (·.object)
        = match tda_lookup object w.widget.data.drawn_area with
          | some _ => w.widget.data.drawn_area.map (·.object)
          | none => object :: w.widget.data.drawn_area.map (·.object)) ∧
    (∀ (env : Env) (w : widget_node_t) (calls : List draw_call),
      (w.widget.data.drawn_area.map (·.object)).Nodup →
      ((taglist_draws env w calls).widget.data.drawn_area.map (·.object)).Nodup ∧
      ∀ o, o ∈ (taglist_draws env w calls).widget.data.drawn_area.map (·.object) ↔
        o ∈ w.widget.data.drawn_area.map (·.object) ∨ o ∈ calls.map (·.object)) := by
  refine ⟨fun env globalconf screen w width height offset object => ⟨?_, ?_⟩,
    fun env w calls hnd => taglist_draws_objects env w calls hnd⟩
  · intro other hne
    obtain ⟨areas, h⟩ := taglist_draw_cache env globalconf screen w width height offset object
    rw [h, tda_lookup_store_other _ _ _ _ hne]
    cases tda_lookup object w.widget.data.drawn_area with
    | some tda => rfl
    | none =>
      have hne' : ¬ object = other := fun e => hne e.symm
      simp [tda_lookup, hne']
  · exact taglist_draw_objects env globalconf screen w width height offset object

/-- The theorem `taglist_draw_cache_frame` on concrete draws: a draw for the
object 43 on `demo_drawn` keeps the areas cached for the object 42, and the
draws `demo_calls` for the objects 42, 43, 42 on the fresh widget `demo_w`
leave one entry for each of the two objects. -/
theorem taglist_draw_cache_frame_witness :
    tda_lookup 42 (taglist_draw demo_env demo_conf 0 demo_drawn 80 12 0 43).w.widget.data.drawn_area
      = some ⟨42, [⟨5, 0, 2, 10⟩, ⟨7, 0, 2, 10⟩, ⟨9, 0, 2, 10⟩]⟩ ∧
    ((taglist_draws demo_env demo_w demo_calls).widget.data.drawn_area.map (·.object)).Nodup := by
  refine ⟨?_, ?_⟩
  · rw [(taglist_draw_cache_frame.1 demo_env demo_conf 0 demo_drawn 80 12 0 43).1 42 (by decide)]
    decide
  · exact (taglist_draw_cache_frame.2 demo_env demo_w demo_calls (by decide)).1

/-! ## Occupied and urgent tags -/

theorem tag_isoccupied_loop_iff (env : Env) (t : tag_t) (clients : List client_t) :
    tag_isoccupied_loop env t clients = true ↔
      ∃ c ∈ clients, env.is_client_tagged c t = true ∧ c.skip = false := by
  induction clients with
  | nil => simp [tag_isoccupied_loop]
  | cons c rest ih =>
    by_cases h : (env.is_client_tagged c t && !c.skip) = true
    · have h' := h
      simp only [Bool.and_eq_true, Bool.not_eq_true'] at h'
      simp only [tag_isoccupied_loop, h, if_true, true_iff]
      exact ⟨c, List.mem_cons_self _ _, h'⟩
    · have h' := h
      simp only [Bool.and_eq_true, Bool.not_eq_true'] at h'
      have hstep : tag_isoccupied_loop env t (c :: rest) = tag_isoccupied_loop env t rest := by
        simp [tag_isoccupied_loop, h]
      rw [hstep, ih]
      constructor
      · rintro ⟨c', hc', hp⟩
        exact ⟨c', List.mem_cons_of_mem _ hc', hp⟩
      · rintro ⟨c', hc', hp⟩
        rcases List.mem_cons.1 hc' with hc' | hc'
        · subst hc'
          exact absurd hp h'
        · exact ⟨c', hc', hp⟩

/-- C14: `tag_isoccupied` returns true if and only if some client of the client
list is tagged with the tag and does not have its skip flag set. -/
theorem tag_isoccupied_iff (env : Env) (globalconf : awesome_t) (t : tag_t) :
    tag_isoccupied env globalconf t = true ↔
      ∃ c ∈ globalconf.clients, env.is_client_tagged c t = true ∧ c.skip = false :=
  tag_isoccupied_loop_iff env t globalconf.clients

/-- The theorem `tag_isoccupied_iff` on the tag `"3"` of `demo_conf`, which
holds the visible client 30. -/
theorem tag_isoccupied_iff_witness :
    tag_isoccupied demo_env demo_conf ⟨3, "3", false⟩ = true :=
  (tag_isoccupied_iff demo_env demo_conf ⟨3, "3", false⟩).2
    ⟨⟨30, false, false⟩, by decide, by decide, rfl⟩

/-- C16: `tag_markup_parse` returns the text of the markup parser, run with the
escaped name of the tag for the element `title`, when parsing succeeds, and a
copy of the template when parsing fails; it returns a text in both cases, so
the first loop of `taglist_draw` gives every tag a text and an area. -/
theorem tag_markup_parse_total (env : Env) (globalconf : awesome_t) (data : taglist_data_t)
    (t : tag_t) (str : String) (tags : List tag_t) :
    (∀ text, env.markup_parse (env.g_markup_escape_text t.name) str = some text →
      tag_markup_parse env t str = text) ∧
    (env.markup_parse (env.g_markup_escape_text t.name) str = none →
      tag_markup_parse env t str = str) ∧
    (taglist_draw_extents env globalconf data tags
      { text := [], area := [], width := 0 }).text.length = tags.length ∧
    (taglist_draw_extents env globalconf data tags
      { text := [], area := [], width := 0 }).area.length = tags.length := by
  refine ⟨fun text h => ?_, fun h => ?_, ?_, ?_⟩
  · simp [tag_markup_parse, h]
  · simp [tag_markup_parse, h, a_strdup]
  · simp [taglist_draw_extents_eq]
  · simp [taglist_draw_extents_eq]

/-- The theorem `tag_markup_parse_total` on the tag `"1"`: the template `"n"`
parses to `"n1"`, and the template `"!"`, on which the parser of `demo_env`
fails, is returned as it is. -/
theorem tag_markup_parse_total_witness :
    tag_markup_parse demo_env ⟨1, "1", false⟩ "n" = "n1" ∧
    tag_markup_parse demo_env ⟨1, "1", false⟩ "!" = "!" :=
  ⟨(tag_markup_parse_total demo_env demo_conf demo_data ⟨1, "1", false⟩ "n" demo_tags).1
      "n1" (by decide),
   (tag_markup_parse_total demo_env demo_conf demo_data ⟨1, "1", false⟩ "!" demo_tags).2.1
      (by decide)⟩

/-! ## The shared cursor never loses a call -/

/-- Whenever the restarting router makes a call, the loop with the shared
cursor makes the same call. -/
theorem loop_eq_of_router_restart (env : Env) (ev : xcb_button_press_event_t)
    (tags : List tag_t) (areas : List area_t) (buttons : List button_t)
    (h : router_restart env ev tags areas buttons ≠ []) :
    taglist_button_press_loop env ev tags buttons areas
      = router_restart env ev tags areas buttons := by
  induction buttons with
  | nil => simp [router_restart] at h
  | cons b rest ih =>
    by_cases hb : binding_applies env ev b
    · have hb' : button_matches env ev b = true := (button_matches_iff env ev b).2 hb
      cases hs : (taglist_button_press_scan ev tags areas).1 with
      | none => exact absurd (router_restart_scan_none env ev tags areas (b :: rest) hs) h
      | some tag =>
        have hpair : taglist_button_press_scan ev tags areas
            = (some tag, (taglist_button_press_scan ev tags areas).2) := by
          rw [← hs]
        simp only [taglist_button_press_loop, router_restart, hb, hb', if_true, hs]
        rw [hpair]
    · have hb' : button_matches env ev b = false := by
        rw [← button_matches_iff] at hb
        simpa using hb
      simp only [router_restart, hb, if_false] at h
      simp only [taglist_button_press_loop, router_restart, hb, hb', if_false]
      exact ih h

/-- C17, as stated, fails on the code: there are no bindings, tags, cached
areas and click for which the restarting router makes a call that
`taglist_button_press` does not make. -/
theorem shared_cursor_loses_call_counterexample :
    ¬ ∃ (env : Env) (globalconf : awesome_t) (w : widget_node_t)
        (ev : xcb_button_press_event_t) (screen : Nat) (object : Nat)
        (tda : taglist_drawn_area_t),
      tda_lookup object w.widget.data.drawn_area = some tda ∧
      ∃ call ∈ router_restart env ev (globalconf.screens screen).tags tda.area w.widget.buttons,
        ∀ calls, taglist_button_press env globalconf w ev screen object = some calls →
          call ∉ calls := by
  rintro ⟨env, globalconf, w, ev, screen, object, tda, hl, call, hcall, hnot⟩
  have hne : router_restart env ev (globalconf.screens screen).tags tda.area w.widget.buttons
      ≠ [] := List.ne_nil_of_mem hcall
  refine hnot _ ?_ hcall
  simp only [taglist_button_press, hl]
  rw [loop_eq_of_router_restart env ev _ _ _ hne]

/-- C17, amended: whenever the router that restarts the walk for each binding
makes a call, `taglist_button_press` makes the same call, and when the cached
area list is not longer than the tag list the two agree on every click. The
shared cursor shows only when the cached list is longer than the tag list:
on `stale_w`, with one tag and two cached areas, the second binding goes on
with the second area and calls its action with the first tag, where the
restarting router makes no call. -/
theorem shared_cursor_refines :
    (∀ (env : Env) (globalconf : awesome_t) (w : widget_node_t)
        (ev : xcb_button_press_event_t) (screen : Nat) (object : Nat)
        (tda : taglist_drawn_area_t),
      tda_lookup object w.widget.data.drawn_area = some tda →
      (router_restart env ev (globalconf.screens screen).tags tda.area w.widget.buttons ≠ [] →
        taglist_button_press env globalconf w ev screen object =
          some (router_restart env ev (globalconf.screens screen).tags tda.area
            w.widget.buttons)) ∧
      (tda.area.length ≤ (globalconf.screens screen).tags.length →
        taglist_button_press env globalconf w ev screen object =
          some (router_restart env ev (globalconf.screens screen).tags tda.area
            w.widget.buttons))) ∧
    (taglist_button_press demo_env stale_conf stale_w ⟨1, 0, 6⟩ 0 42 =
        some [(8, ⟨1, "1", false⟩)] ∧
      router_restart demo_env ⟨1, 0, 6⟩ (stale_conf.screens 0).tags
        [⟨0, 0, 2, 10⟩, ⟨5, 0, 2, 10⟩] stale_w.widget.buttons = []) := by
  refine ⟨fun env globalconf w ev screen object tda hl => ⟨fun hne => ?_, fun hlen => ?_⟩,
    by decide, by decide⟩
  · simp only [taglist_button_press, hl]
    rw [loop_eq_of_router_restart env ev _ _ _ hne]
  · simp only [taglist_button_press, hl]
    rw [loop_eq_router_restart env ev _ _ _ hlen]

/-- The theorem `shared_cursor_refines` on the drawn widget `demo_multi`: a
click of button 2 at `event_x = 6` is routed as by the restarting router. -/
theorem shared_cursor_refines_witness :
    tda_lookup 42 demo_multi.widget.data.drawn_area =
        some ⟨42, [⟨5, 0, 2, 10⟩, ⟨7, 0, 2, 10⟩, ⟨9, 0, 2, 10⟩]⟩ ∧
      taglist_button_press demo_env demo_conf demo_multi ⟨2, 0, 6⟩ 0 42 =
        some (router_restart demo_env ⟨2, 0, 6⟩ (demo_conf.screens 0).tags
          [⟨5, 0, 2, 10⟩, ⟨7, 0, 2, 10⟩, ⟨9, 0, 2, 10⟩] demo_multi.widget.buttons) := by
  have hl : tda_lookup 42 demo_multi.widget.data.drawn_area =
      some ⟨42, [⟨5, 0, 2, 10⟩, ⟨7, 0, 2, 10⟩, ⟨9, 0, 2, 10⟩]⟩ := by decide
  exact ⟨hl, (shared_cursor_refines.1 demo_env demo_conf demo_multi ⟨2, 0, 6⟩ 0 42 _ hl).1
    (by decide)⟩

/-! ## The cache entry is rebuilt by every draw -/

theorem taglist_draw_cache_eq (env : Env) (globalconf : awesome_t) (screen : Nat)
    (w : widget_node_t) (width height offset : Int) (object : Nat) :
    (taglist_draw env globalconf screen w width height offset object).w.widget.data.drawn_area
      = tda_store object
          (taglist_draw_areas env globalconf w.widget.data w.widget.align
            (globalconf.screens screen).tags width offset)
          (match tda_lookup object w.widget.data.drawn_area with
            | some _ => w.widget.data.drawn_area
            | none => { object := object, area := [] } :: w.widget.data.drawn_area) := by
  simp only [taglist_draw, taglist_draw_extents_eq, List.nil_append, tags_width,
    taglist_draw_areas, taglist_drawn_area_list_push]

theorem tag_label_congr (env : Env) (globalconf : awesome_t) (d d' : taglist_data_t)
    (hn : d'.text_normal = d.text_normal) (hf : d'.text_focus = d.text_focus)
    (hu : d'.text_urgent = d.text_urgent) :
    tag_label env globalconf d' = tag_label env globalconf d := by
  funext tag
  simp only [tag_label, taglist_text_get, hn, hf, hu]

theorem tag_extents_congr (env : Env) (globalconf : awesome_t) (d d' : taglist_data_t)
    (hn : d'.text_normal = d.text_normal) (hf : d'.text_focus = d.text_focus)
    (hu : d'.text_urgent = d.text_urgent) :
    tag_extents env globalconf d' = tag_extents env globalconf d := by
  funext tag
  simp only [tag_extents, tag_label_congr env globalconf d d' hn hf hu]

theorem taglist_draw_place_congr (env : Env) (globalconf : awesome_t) (d d' : taglist_data_t)
    (hs : d'.show_empty = d.show_empty) (wx : Int) (text : List String) (tags : List tag_t)
    (areas : List area_t) (i : Nat) (prev_width : Int) :
    taglist_draw_place env globalconf d' wx text tags areas i prev_width
      = taglist_draw_place env globalconf d wx text tags areas i prev_width := by
  induction tags generalizing areas i prev_width with
  | nil => simp [taglist_draw_place]
  | cons tag tags ih =>
    cases areas with
    | nil => simp [taglist_draw_place]
    | cons area areas => simp only [taglist_draw_place, hs, ih]

theorem taglist_draw_areas_congr (env : Env) (globalconf : awesome_t) (d d' : taglist_data_t)
    (hn : d'.text_normal = d.text_normal) (hf : d'.text_focus = d.text_focus)
    (hu : d'.text_urgent = d.text_urgent) (hs : d'.show_empty = d.show_empty)
    (align : alignment_t) (tags : List tag_t) (width offset : Int) :
    taglist_draw_areas env globalconf d' align tags width offset
      = taglist_draw_areas env globalconf d align tags width offset := by
  simp only [taglist_draw_areas, tags_width, tag_label_congr env globalconf d d' hn hf hu,
    tag_extents_congr env globalconf d d' hn hf hu,
    taglist_draw_place_congr env globalconf d d' hs]

theorem tda_store_store (object : Nat) (area : List area_t) (l : List taglist_drawn_area_t) :
    tda_store object area (tda_store object area l) = tda_store object area l := by
  induction l with
  | nil => simp [tda_store]
  | cons tda rest ih =>
    by_cases ho : tda.object = object
    · simp [tda_store, ho]
    · simp [tda_store, ho, ih]

/-- C18: the areas cached for an object after `taglist_draw` depend on the draw
alone: two widget nodes with the same templates, `show_empty` and alignment,
whatever their caches hold, get the same cached areas for the object and the
same returned width; and a second draw with the same arguments right after the
first leaves the cache and the returned width of the first. -/
theorem taglist_draw_rebuilds (env : Env) (globalconf : awesome_t) (screen : Nat)
    (w w' : widget_node_t) (width height offset : Int) (object : Nat)
    (hn : w'.widget.data.text_normal = w.widget.data.text_normal)
    (hf : w'.widget.data.text_focus = w.widget.data.text_focus)
    (hu : w'.widget.data.text_urgent = w.widget.data.text_urgent)
    (hs : w'.widget.data.show_empty = w.widget.data.show_empty)
    (ha : w'.widget.align = w.widget.align) :
    (tda_lookup object
        (taglist_draw env globalconf screen w' width height offset object).w.widget.data.drawn_area
      = tda_lookup object
        (taglist_draw env globalconf screen w width height offset object).w.widget.data.drawn_area ∧
      (taglist_draw env globalconf screen w' width height offset object).ret
        = (taglist_draw env globalconf screen w width height offset object).ret) ∧
    ((taglist_draw env globalconf screen
        (taglist_draw env globalconf screen w width height offset object).w
        width height offset object).ret
      = (taglist_draw env globalconf screen w width height offset object).ret ∧
      (taglist_draw env globalconf screen
        (taglist_draw env globalconf screen w width height offset object).w
        width height offset object).w.widget.data.drawn_area
      = (taglist_draw env globalconf screen w width height offset object).w.widget.data.drawn_area)
    := by
  have hlk : ∀ v : widget_node_t,
      tda_lookup object
        (taglist_draw env globalconf screen v width height offset object).w.widget.data.drawn_area
      = some ⟨object, taglist_draw_areas env globalconf v.widget.data v.widget.align
          (globalconf.screens screen).tags width offset⟩ :=
    fun v => taglist_draw_lookup env globalconf screen v width height offset object
  refine ⟨⟨?_, ?_⟩, ?_, ?_⟩
  · rw [hlk w', hlk w, ha, taglist_draw_areas_congr env globalconf _ _ hn hf hu hs]
  · simp only [taglist_draw_ret_eq, tags_width,
      tag_extents_congr env globalconf w.widget.data w'.widget.data hn hf hu]
  · rw [taglist_draw_ret_eq, taglist_draw_ret_eq]
    rfl
  · rw [taglist_draw_cache_eq env globalconf screen
      (taglist_draw env globalconf screen w width height offset object).w, hlk w]
    have hareas : taglist_draw_areas env globalconf
        (taglist_draw env globalconf screen w width height offset object).w.widget.data
        (taglist_draw env globalconf screen w width height offset object).w.widget.align
        (globalconf.screens screen).tags width offset
        = taglist_draw_areas env globalconf w.widget.data w.widget.align
          (globalconf.screens screen).tags width offset :=
      taglist_draw_areas_congr env globalconf w.widget.data
        (taglist_draw env globalconf screen w width height offset object).w.widget.data
        rfl rfl rfl rfl w.widget.align _ _ _
    rw [hareas]
    simp only []
    rw [taglist_draw_cache_eq env globalconf screen w, tda_store_store]

/-- The theorem `taglist_draw_rebuilds` on `demo_w`, whose cache is empty, and
`stale_w`, whose cache holds two old areas for the object 42: after a draw of
the three tags of `demo_conf` both have the same three areas for the object. -/
theorem taglist_draw_rebuilds_witness :
    tda_lookup 42 stale_w.widget.data.drawn_area
        = some ⟨42, [⟨0, 0, 2, 10⟩, ⟨5, 0, 2, 10⟩]⟩ ∧
    tda_lookup 42 (taglist_draw demo_env demo_conf 0 stale_w 100 12 5 42).w.widget.data.drawn_area
      = tda_lookup 42
        (taglist_draw demo_env demo_conf 0 demo_w 100 12 5 42).w.widget.data.drawn_area :=
  ⟨by decide,
   (taglist_draw_rebuilds demo_env demo_conf 0 demo_w stale_w 100 12 5 42 rfl rfl rfl rfl rfl).1.1⟩

/-! ## The spans of a draw that shows every tag -/

/-- Every coordinate from the start of the first placed area up to the sum of
the widths is held by some placed area. -/
theorem areas_placed_cover (wx : Int) (areas : List area_t) (prev_width : Int) (x : Int)
    (hlo : wx + prev_width ≤ x)
    (hhi : x < wx + prev_width + (areas.map (·.width)).sum) :
    ∃ (i : Nat) (a : area_t),
      (areas_placed wx areas prev_width)[i]? = some a ∧ span_holds a x := by
  induction areas generalizing prev_width with
  | nil =>
    simp only [List.map_nil, List.sum_nil] at hhi
    omega
  | cons area areas ih =>
    simp only [List.map_cons, List.sum_cons] at hhi
    by_cases hx : x < wx + prev_width + area.width
    · refine ⟨0, { area with x := wx + prev_width }, by simp [areas_placed], ?_⟩
      simp only [span_holds]
      omega
    · obtain ⟨i, a, hi, ha⟩ := ih (prev_width + area.width) (by omega) (by omega)
      exact ⟨i + 1, a, by simpa [areas_placed] using hi, ha⟩

/-- Every placed area ends at or before the start of the first one plus the sum
of the widths. -/
theorem areas_placed_right_le (wx : Int) (areas : List area_t) (prev_width : Int)
    (hw : ∀ a ∈ areas, 0 ≤ a.width) :
    ∀ a ∈ areas_placed wx areas prev_width,
      a.x + a.width ≤ wx + prev_width + (areas.map (·.width)).sum := by
  induction areas generalizing prev_width with
  | nil => simp [areas_placed]
  | cons area areas ih =>
    have hw' : ∀ a ∈ areas, 0 ≤ a.width := fun a ha => hw a (List.mem_cons_of_mem _ ha)
    have hsum : 0 ≤ (areas.map (·.width)).sum :=
      List.sum_nonneg fun x hx => by
        obtain ⟨a, ha, rfl⟩ := List.mem_map.1 hx
        exact hw' a ha
    intro a ha
    simp only [areas_placed, List.mem_cons] at ha
    simp only [List.map_cons, List.sum_cons]
    rcases ha with ha | ha
    · subst ha
      simp only
      omega
    · have := ih (prev_width + area.width) hw' a ha
      omega

/-- At most one placed area holds a given coordinate. -/
theorem areas_placed_unique (wx : Int) (areas : List area_t) (prev_width : Int)
    (hw : ∀ a ∈ areas, 0 ≤ a.width) (x : Int) (i j : Nat) (a a' : area_t)
    (hi : (areas_placed wx areas prev_width)[i]? = some a) (ha : span_holds a x)
    (hj : (areas_placed wx areas prev_width)[j]? = some a') (ha' : span_holds a' x) :
    j = i := by
  simp only [span_holds] at ha ha'
  rcases Nat.lt_trichotomy j i with h | h | h
  · have := areas_placed_ordered wx areas prev_width hw j i h a' a hj hi
    omega
  · exact h
  · have := areas_placed_ordered wx areas prev_width hw i j h a a' hi hj
    omega

/-- C19, as stated, fails on the code: in the draw with `show_empty` on and
three labels of the positive width `2^30` at the anchor 5, the running width
leaves the range of a C `int`; the returned width is `-2^30`, the third tag is
cached at `x = -2147483643`, left of the first, and a click at `event_x = 5`,
which is not in the interval from the anchor 5 to the anchor plus the returned
width, calls the action with the first tag. -/
theorem taglist_draw_spans_partition_counterexample :
    demo_w.widget.data.show_empty = true ∧
    wide_env.widget_calculate_offset 100
        (taglist_draw wide_env demo_conf 0 demo_w 100 12 5 42).ret 5 demo_w.widget.align = 5 ∧
    (taglist_draw wide_env demo_conf 0 demo_w 100 12 5 42).ret = -1073741824 ∧
    tda_lookup 42 wide_drawn.widget.data.drawn_area =
      some ⟨42, [⟨5, 0, 1073741824, 10⟩, ⟨1073741829, 0, 1073741824, 10⟩,
        ⟨-2147483643, 0, 1073741824, 10⟩]⟩ ∧
    ¬ ((5 : Int) + 1073741824 ≤ -2147483643) ∧
    ¬ ((5 : Int) < 5 + -1073741824) ∧
    taglist_button_press wide_env demo_conf wide_drawn ⟨1, 0, 5⟩ 0 42 =
      some [(7, ⟨1, "1", false⟩)] := by
  decide

/-- C19, amended: after a `taglist_draw` with `show_empty` on in which every
label has a positive measured width, and in which the sum of the measured
widths as well as the anchor plus that sum stay in the range of a C `int`, the
cached spans are in tag order without overlap and
lie in the interval from the anchor to the anchor plus the returned width; for
a click with an applying binding, every `event_x` in that interval is held by
the span of exactly one tag and the action is called with that tag, and every
`event_x` outside the interval leads to no call. -/
theorem taglist_draw_spans_partition (env : Env) (globalconf : awesome_t) (screen : Nat)
    (w : widget_node_t) (width height offset : Int) (object : Nat)
    (ev : xcb_button_press_event_t) (pre : List button_t) (b : button_t)
    (post : List button_t)
    (hse : w.widget.data.show_empty = true)
    (hw : ∀ tag ∈ (globalconf.screens screen).tags,
      0 < (env.draw_text_extents globalconf.font
        (tag_markup_parse env tag (taglist_text_get env globalconf tag w.widget.data))).width)
    (hsum : ((globalconf.screens screen).tags.map fun tag =>
      (env.draw_text_extents globalconf.font
        (tag_markup_parse env tag
          (taglist_text_get env globalconf tag w.widget.data))).width).sum ≤ INT_MAX)
    (hanchor : INT_MIN ≤ env.widget_calculate_offset width
      (taglist_draw env globalconf screen w width height offset object).ret offset w.widget.align)
    (hend : env.widget_calculate_offset width
        (taglist_draw env globalconf screen w width height offset object).ret offset
        w.widget.align
      + ((globalconf.screens screen).tags.map fun tag =>
        (env.draw_text_extents globalconf.font
          (tag_markup_parse env tag
            (taglist_text_get env globalconf tag w.widget.data))).width).sum ≤ INT_MAX)
    (hbs : w.widget.buttons = pre ++ b :: post)
    (hpre : ∀ b' ∈ pre, ¬ binding_applies env ev b') (hb : binding_applies env ev b) :
    ∃ tda,
      tda_lookup object
        (taglist_draw env globalconf screen w width height offset object).w.widget.data.drawn_area
        = some tda ∧
      (∀ (j i : Nat) (a' a : area_t), j < i → tda.area[j]? = some a' → tda.area[i]? = some a →
        a'.x + a'.width ≤ a.x) ∧
      (∀ a ∈ tda.area,
        env.widget_calculate_offset width
            (taglist_draw env globalconf screen w width height offset object).ret
            offset w.widget.align ≤ a.x ∧
        a.x + a.width ≤
          env.widget_calculate_offset width
              (taglist_draw env globalconf screen w width height offset object).ret
              offset w.widget.align
            + (taglist_draw env globalconf screen w width height offset object).ret) ∧
      (∀ x : Int,
        env.widget_calculate_offset width
            (taglist_draw env globalconf screen w width height offset object).ret
            offset w.widget.align ≤ x →
        x < env.widget_calculate_offset width
              (taglist_draw env globalconf screen w width height offset object).ret
              offset w.widget.align
            + (taglist_draw env globalconf screen w width height offset object).ret →
        ∃ (i : Nat) (tag : tag_t) (a : area_t),
          (globalconf.screens screen).tags[i]? = some tag ∧ tda.area[i]? = some a ∧
          span_holds a x ∧
          (∀ (j : Nat) (a' : area_t), tda.area[j]? = some a' → span_holds a' x → j = i) ∧
          taglist_button_press env globalconf
            (taglist_draw env globalconf screen w width height offset object).w
            { ev with event_x := x } screen object = some [(b.fct, tag)]) ∧
      (∀ x : Int,
        (x < env.widget_calculate_offset width
              (taglist_draw env globalconf screen w width height offset object).ret
              offset w.widget.align ∨
          env.widget_calculate_offset width
              (taglist_draw env globalconf screen w width height offset object).ret
              offset w.widget.align
            + (taglist_draw env globalconf screen w width height offset object).ret ≤ x) →
        taglist_button_press env globalconf
          (taglist_draw env globalconf screen w width height offset object).w
          { ev with event_x := x } screen object = some []) := by
  have hw0 : ∀ tag ∈ (globalconf.screens screen).tags,
      0 ≤ (tag_extents env globalconf w.widget.data tag).width :=
    fun t ht => le_of_lt (hw t ht)
  have hS := tags_width_of_fits env globalconf w.widget.data _ hw0 hsum
  rw [taglist_draw_ret_eq, hS] at hanchor hend
  have hlk := taglist_draw_lookup_placed env globalconf screen w width height offset object
    (fun _ _ => Or.inl hse) hw0 hsum hanchor hend
  have hpos : ∀ a ∈ (globalconf.screens screen).tags.map (tag_extents env globalconf w.widget.data),
      0 < a.width := by
    intro a ha
    obtain ⟨t, ht, rfl⟩ := List.mem_map.1 ha
    exact hw t ht
  have hw' : ∀ a ∈ (globalconf.screens screen).tags.map (tag_extents env globalconf w.widget.data),
      0 ≤ a.width := fun a ha => le_of_lt (hpos a ha)
  have hsum : (((globalconf.screens screen).tags.map
        (tag_extents env globalconf w.widget.data)).map (·.width)).sum
      = ((globalconf.screens screen).tags.map fun t =>
          (tag_extents env globalconf w.widget.data t).width).sum := by
    rw [List.map_map]
    rfl
  have hbs' : (taglist_draw env globalconf screen w width height offset object).w.widget.buttons
      = pre ++ b :: post := hbs
  rw [taglist_draw_ret_eq, hS]
  have hin : ∀ a ∈ areas_placed
        (env.widget_calculate_offset width
          ((globalconf.screens screen).tags.map fun t =>
            (tag_extents env globalconf w.widget.data t).width).sum offset w.widget.align)
        ((globalconf.screens screen).tags.map (tag_extents env globalconf w.widget.data)) 0,
      env.widget_calculate_offset width
          ((globalconf.screens screen).tags.map fun t =>
            (tag_extents env globalconf w.widget.data t).width).sum offset w.widget.align ≤ a.x ∧
      a.x + a.width ≤
        env.widget_calculate_offset width
            ((globalconf.screens screen).tags.map fun t =>
            (tag_extents env globalconf w.widget.data t).width).sum offset w.widget.align
          + ((globalconf.screens screen).tags.map fun t =>
              (tag_extents env globalconf w.widget.data t).width).sum := by
    intro a ha
    have h1 := areas_placed_x_ge _ _ 0 hw' a ha
    have h2 := areas_placed_right_le _ _ 0 hw' a ha
    rw [hsum] at h2
    constructor <;> omega
  refine ⟨_, hlk, ?_, hin, ?_, ?_⟩
  · intro j i a' a hji hj hi
    exact areas_placed_ordered _ _ 0 hw' j i hji a' a hj hi
  · intro x hlo hhi
    obtain ⟨i, a, hi, ha⟩ := areas_placed_cover
      (env.widget_calculate_offset width
        ((globalconf.screens screen).tags.map fun t =>
            (tag_extents env globalconf w.widget.data t).width).sum offset w.widget.align)
      ((globalconf.screens screen).tags.map (tag_extents env globalconf w.widget.data)) 0 x
      (by omega) (by rw [hsum]; omega)
    have hilt : i < (globalconf.screens screen).tags.length := by
      have := (List.getElem?_eq_some_iff.1 hi).1
      simpa [areas_placed_length] using this
    have huniq : ∀ (j : Nat) (a' : area_t),
        (areas_placed
          (env.widget_calculate_offset width
            ((globalconf.screens screen).tags.map fun t =>
            (tag_extents env globalconf w.widget.data t).width).sum offset w.widget.align)
          ((globalconf.screens screen).tags.map (tag_extents env globalconf w.widget.data))
          0)[j]? = some a' → span_holds a' x → j = i :=
      fun j a' hj ha' => areas_placed_unique _ _ 0 hw' x i j a a' hi ha hj ha'
    refine ⟨i, (globalconf.screens screen).tags[i], a, List.getElem?_eq_getElem hilt, hi, ha,
      huniq, ?_⟩
    have hpre' : ∀ b' ∈ pre, ¬ binding_applies env { ev with event_x := x } b' := hpre
    have hb' : binding_applies env { ev with event_x := x } b := hb
    have hs := scan_hit { ev with event_x := x } (globalconf.screens screen).tags _ i _ a
      (List.getElem?_eq_getElem hilt) hi ha
      (fun j hj a' hj' ha' => absurd (huniq j a' hj' ha') (by omega))
    simp only [taglist_button_press, hlk, hbs']
    rw [loop_first_binding env _ _ pre b post _ hpre' hb']
    split
    · rename_i heq
      rw [heq] at hs
      simp only [Option.some.injEq] at hs
      rw [hs]
    · rename_i heq
      rw [heq] at hs
      simp at hs
  · intro x hx
    simp only [taglist_button_press, hlk]
    rw [loop_no_span]
    intro a ha hs
    have := hin a ha
    simp only [span_holds] at hs
    omega

/-- The theorem `taglist_draw_spans_partition` on the widget `demo_w`, drawn
for the object 42 at offset 5 with returned width 6: a click of button 1 at
`event_x = 10`, inside `[5,11)`, calls the action 7 with the tag `"3"`. -/
theorem taglist_draw_spans_partition_witness :
    demo_w.widget.data.show_empty = true ∧
    (taglist_draw demo_env demo_conf 0 demo_w 100 12 5 42).ret = 6 ∧
    taglist_button_press demo_env demo_conf demo_drawn ⟨1, 0, 10⟩ 0 42 =
      some [(7, ⟨3, "3", false⟩)] := by
  refine ⟨rfl, by decide, ?_⟩
  obtain ⟨tda, hl, -, -, hcover, -⟩ :=
    taglist_draw_spans_partition demo_env demo_conf 0 demo_w 100 12 5 42 ⟨1, 0, 0⟩ []
      ⟨1, 0, 7⟩ [] rfl (by decide) (by decide) (by decide) (by decide) rfl (by simp)
      (by decide)
  have hl' : tda_lookup 42
      (taglist_draw demo_env demo_conf 0 demo_w 100 12 5 42).w.widget.data.drawn_area =
      some ⟨42, [⟨5, 0, 2, 10⟩, ⟨7, 0, 2, 10⟩, ⟨9, 0, 2, 10⟩]⟩ := by decide
  rw [hl'] at hl
  simp only [Option.some.injEq] at hl
  subst hl
  obtain ⟨i, tag, a, htag, -, -, huniq, hpress⟩ := hcover 10 (by decide) (by decide)
  have hi : 2 = i := huniq 2 ⟨9, 0, 2, 10⟩ (by decide) (by decide)
  subst hi
  have htag' : tag = ⟨3, "3", false⟩ := by
    have h3 : (demo_conf.screens 0).tags[2]? = some (⟨3, "3", false⟩ : tag_t) := by decide
    rw [h3] at htag
    exact (Option.some.inj htag).symm
  rw [← htag']
  exact hpress

/-! ## Clicks after a draw that filters tags -/

/-- C20 on the code: with `show_empty` off the tag `"1"`, neither selected nor
occupied, is filtered out of the draw (only the texts of `"2"` and `"3"` are
drawn), yet its area stays in the cache with the span `[0,2)`; a click of
button 1 at `event_x = 1`, inside the span `[0,2)` of the drawn tag `"2"`,
calls the action with the filtered tag `"1"`. -/
theorem taglist_button_press_filtered_tag :
    hidden_w.widget.data.show_empty = false ∧
    (⟨1, "1", false⟩ : tag_t).selected = false ∧
    tag_isoccupied demo_env demo_conf ⟨1, "1", false⟩ = false ∧
    (taglist_draw demo_env demo_conf 0 hidden_w 100 12 0 42).cmds =
      [draw_cmd.draw_text ⟨0, 0, 2, 10⟩ "f2",
       draw_cmd.draw_text ⟨2, 0, 2, 10⟩ "u3",
       draw_cmd.draw_rectangle ⟨2, 0, 4, 4⟩ false] ∧
    tda_lookup 42 hidden_drawn_left.widget.data.drawn_area =
      some ⟨42, [⟨0, 0, 2, 10⟩, ⟨0, 0, 2, 10⟩, ⟨2, 0, 2, 10⟩]⟩ ∧
    taglist_button_press demo_env demo_conf hidden_drawn_left ⟨1, 0, 1⟩ 0 42 =
      some [(7, ⟨1, "1", false⟩)] := by
  decide

end Taglist
